import Mathlib

/-!
Verification of the weekly expense tracker's week-lifecycle and
transaction-attribution engine (`FinanceService`) and its calendar utility
(`DatesService`).

Modelling conventions:
* A JavaScript `Date` is its timestamp in milliseconds, an `Int` (`Ms`).
  Local time and UTC coincide in the model (offset 0), so
  `toISOString().split('T')[0]` of a timestamp is determined by its day
  number `dayNum`.
* `StorageService` is a durable key-value map; the keys the service uses are
  modelled as the fields of the state record `St`.  `StorageService.get`
  with a default is a field read with `Option.getD`-style defaulting;
  `StorageService.set` is a field update.
* `'week_' + Date.now().toString(36) + '_' + Math.random()...` and the
  transaction-id concatenation are collision-resistant unique-id generators;
  they are modelled by a counter supply `gensym` drawn from `Nat`.
* Thrown `Error`s are modelled by `Except Err`; each operation returns its
  result together with the state at the moment it returned or threw, since
  storage writes performed before a throw persist.
-/

/-- Timestamp in milliseconds (local clock). -/
abbrev Ms := Int

def dayMs : Int := 86400000

def hourMs : Int := 3600000

def noonMs : Int := 43200000

/-- `setHours(23,59,59,999)` offset from midnight. -/
def endOfDayMs : Int := 86399999

/-- Day number of a timestamp: floor of division by the day length
(for the positive divisor `dayMs`, `Int`'s Euclidean `/` is floor division,
matching the JS local-midnight truncation). -/
def dayNum (t : Ms) : Int := t / dayMs

/-- `setHours(0,0,0,0)`: truncate a timestamp to its local midnight. -/
def midnight (t : Ms) : Ms := dayNum t * dayMs

/-- `getDay()`: weekday of a day number; day 0 (1970-01-01) was a Thursday. -/
def weekdayOfDay (n : Int) : Int := (n + 4) % 7

/-- `getDay()` of a timestamp: 0 = Sunday, ..., 6 = Saturday. -/
def weekday (t : Ms) : Int := weekdayOfDay (dayNum t)

/-- `getHours()` of a timestamp. -/
def hourOf (t : Ms) : Int := (t % dayMs) / hourMs

namespace DatesService

/-- `getWeekStart`: the Sunday on or before the date, at local midnight. -/
def getWeekStart (t : Ms) : Ms := (dayNum t - weekday t) * dayMs

/-- `getWeekEnd`: the Saturday of the same Sunday-aligned week, at 23:59:59.999. -/
def getWeekEnd (t : Ms) : Ms := getWeekStart t + 6 * dayMs + endOfDayMs

/-- `isDateInCurrentWeekPeriod`: `date` truncated to midnight lies between
`weekStart` at midnight and `weekEnd` at end-of-day (inclusive). -/
def isDateInCurrentWeekPeriod (date weekStart weekEnd : Ms) : Bool :=
  midnight weekStart ≤ midnight date && midnight date ≤ midnight weekEnd + endOfDayMs

/-- `isDayOfWeek`: the timestamp's weekday equals `k`. -/
def isDayOfWeek (t : Ms) (k : Int) : Bool := weekday t == k

/-- `getNextDayOfWeekAfter`: next date after `t` whose weekday is `k`, at noon;
advances at least one day even when `t` already falls on weekday `k`. -/
def getNextDayOfWeekAfter (t : Ms) (k : Int) : Ms :=
  let diff0 := k - weekday t
  let diff := if diff0 ≤ 0 then diff0 + 7 else diff0
  midnight t + diff * dayMs + noonMs

end DatesService

/-- `{enabled, dayOfWeek, hour}` of the auto-close schedule. -/
structure AutoCloseConfig where
  enabled : Bool
  dayOfWeek : Int
  hour : Int
deriving Repr, DecidableEq

/-- Default config returned by `getAutoCloseConfig` when none is stored. -/
def defaultAutoCloseConfig : AutoCloseConfig :=
  { enabled := true, dayOfWeek := 0, hour := 12 }

/-- JS `String.prototype.trim`: strip leading and trailing whitespace.
JS strings are modelled as lists of characters. -/
def jsTrim (s : List Char) : List Char :=
  ((s.dropWhile Char.isWhitespace).reverse.dropWhile Char.isWhitespace).reverse

/-- A persisted expense entry.  `amount` is an exact rational standing for the
JS number; `date` and `createdAt` are stored ISO strings, i.e. timestamps. -/
structure Transaction where
  id : Nat
  description : List Char
  amount : Rat
  date : Ms
  weekId : Nat
  createdAt : Ms
deriving Repr, DecidableEq

/-- The whole persisted state of the Week Ledger: one field per storage key,
plus the unique-id supply `gensym`. -/
structure St where
  transactions : List Transaction
  closedWeeks : List Nat
  weekIdMapping : List (Nat × Int)
  currentWeekStart : Option Ms
  currentWeekId : Option Nat
  nextCloseDate : Option Ms
  autoCloseConfig : Option AutoCloseConfig
  weeklyLimit : Option Rat
  gensym : Nat
deriving Repr, DecidableEq

/-- The errors thrown by the service (all are plain `Error`s in the source;
the constructor records which `throw` site fired).  `invalidTimeValue` is the
`RangeError` raised by `toISOString()` on an Invalid Date. -/
inductive Err where
  | emptyDescription
  | nonPositiveAmount
  | missingDate
  | closedWeek
  | alreadyClosed
  | persistenceInconsistency
  | invalidTimeValue
  | wrongCloseDay
  | closeDateNotFuture
deriving Repr, DecidableEq

instance {e a : Type} [DecidableEq e] [DecidableEq a] : DecidableEq (Except e a) := fun
  | .ok x, .ok y => if h : x = y then .isTrue (by rw [h]) else .isFalse (by simp [h])
  | .ok _, .error _ => .isFalse (by simp)
  | .error _, .ok _ => .isFalse (by simp)
  | .error x, .error y => if h : x = y then .isTrue (by rw [h]) else .isFalse (by simp [h])

/-- What `createTransaction` observes of its `dateString` argument: whether the
string is falsy (missing/empty), and the timestamp `new Date(s + 'T00:00:00')`
parses to (`none` = Invalid Date). -/
structure DateStr where
  isEmpty : Bool
  parsed : Option Ms
deriving Repr, DecidableEq

namespace FinanceService

/-- `generateWeekId` / the transaction-id expression: draw a fresh id. -/
def generateWeekId (s : St) : Nat × St :=
  (s.gensym, { s with gensym := s.gensym + 1 })

/-- First mapping entry with the given key (JS property lookup). -/
def lookupMapping : List (Nat × Int) → Nat → Option Int
  | [], _ => none
  | p :: ps, k => if p.1 = k then some p.2 else lookupMapping ps k

/-- First mapping entry whose stored date equals `dateKey`
(the `Object.entries` search in `getOrCreateWeekId`). -/
def findWeekIdByDate : List (Nat × Int) → Int → Option Nat
  | [], _ => none
  | p :: ps, d => if p.2 = d then some p.1 else findWeekIdByDate ps d

/-- JS object assignment `mapping[k] = v`: replace the value if the key is
present, otherwise append the pair in insertion order. -/
def objSet : List (Nat × Int) → Nat → Int → List (Nat × Int)
  | [], k, v => [(k, v)]
  | p :: ps, k, v => if p.1 = k then (k, v) :: ps else p :: objSet ps k v

/-- `toISOString().split('T')[0]` of a timestamp, as a day number. -/
def toDateKey (t : Ms) : Int := dayNum t

/-- `getOrCreateWeekId`: reuse the first weekId mapped to the date, else mint a
fresh id and record it. -/
def getOrCreateWeekId (weekStartDate : Ms) (s : St) : Nat × St :=
  match findWeekIdByDate s.weekIdMapping (toDateKey weekStartDate) with
  | some wid => (wid, s)
  | none =>
    let (nid, s1) := generateWeekId s
    (nid, { s1 with weekIdMapping := objSet s1.weekIdMapping nid (toDateKey weekStartDate) })

/-- `getWeekStartDateById`: mapping date of a weekId, as a midnight timestamp. -/
def getWeekStartDateById (wid : Nat) (s : St) : Option Ms :=
  (lookupMapping s.weekIdMapping wid).map (· * dayMs)

/-- `getClosedWeeks`. -/
def getClosedWeeks (s : St) : List Nat := s.closedWeeks

/-- `isWeekClosed`. -/
def isWeekClosed (wid : Nat) (s : St) : Bool := (getClosedWeeks s).contains wid

/-- `getAutoCloseConfig` with its stored default. -/
def getAutoCloseConfig (s : St) : AutoCloseConfig :=
  s.autoCloseConfig.getD defaultAutoCloseConfig

/-- `getCurrentWeekStartDate`: the stored start if present, otherwise derived
from the next close date (7 days earlier, but never before today), otherwise
the standard week start of today. -/
def getCurrentWeekStartDate (now : Ms) (s : St) : Ms :=
  match s.currentWeekStart with
  | some t => t
  | none =>
    match s.nextCloseDate with
    | none => DatesService.getWeekStart now
    | some nc =>
      let ws := midnight nc - 7 * dayMs
      let today := midnight now
      if ws > today then ws else today

/-- The re-derivation branch of `getCurrentWeekId`: obtain or create an id for
the current start date and persist it as the current-week id. -/
def getCurrentWeekIdFresh (now : Ms) (s : St) : Nat × St :=
  let ws := getCurrentWeekStartDate now s
  let (wid, s1) := getOrCreateWeekId ws s
  (wid, { s1 with currentWeekId := some wid })

/-- `getCurrentWeekId`: the stored id when it is still mapped to the current
start date, otherwise lazily re-derived (and persisted). -/
def getCurrentWeekId (now : Ms) (s : St) : Nat × St :=
  match s.currentWeekId with
  | some stored =>
    match getWeekStartDateById stored s with
    | some ws =>
      if ws = getCurrentWeekStartDate now s then (stored, s)
      else getCurrentWeekIdFresh now s
    | none => getCurrentWeekIdFresh now s
  | none => getCurrentWeekIdFresh now s

/-- `getCurrentWeekEndDate`: the next close date at end-of-day when present
(unless it precedes the current start, in which case the standard week end of
the start), otherwise the standard week end of today. -/
def getCurrentWeekEndDate (now : Ms) (s : St) : Ms :=
  match s.nextCloseDate with
  | none => DatesService.getWeekEnd now
  | some nc =>
    let ws := getCurrentWeekStartDate now s
    let ncE := midnight nc + endOfDayMs
    if ncE < ws then DatesService.getWeekEnd ws else ncE

/-- `setCurrentWeekStart`: store the truncated start date and the given id
(or an id obtained/created for that date when none is given). -/
def setCurrentWeekStart (date : Ms) (weekId : Option Nat) (s : St) : St :=
  let d := midnight date
  let s1 := { s with currentWeekStart := some d }
  match weekId with
  | some w => { s1 with currentWeekId := some w }
  | none =>
    let (fid, s2) := getOrCreateWeekId d s1
    { s2 with currentWeekId := some fid }

/-- `setNextCloseDate`: rejects a date not on the configured weekday
(`config.dayOfWeek || 0`, which is the stored weekday itself) or not strictly
after today; otherwise stores the timestamp untruncated. -/
def setNextCloseDate (now date : Ms) (s : St) : Except Err St :=
  let config := getAutoCloseConfig s
  let dow := config.dayOfWeek
  if !DatesService.isDayOfWeek date dow then .error .wrongCloseDay
  else if midnight date ≤ midnight now then .error .closeDateNotFuture
  else .ok { s with nextCloseDate := some date }

/-- `isTransactionInClosedWeek`: closed by the transaction's own weekId, or by
the weekId of the standard calendar week of its date (obtained or created). -/
def isTransactionInClosedWeek (t : Transaction) (s : St) : Bool × St :=
  if isWeekClosed t.weekId s then (true, s)
  else
    let (stdId, s1) := getOrCreateWeekId (DatesService.getWeekStart t.date) s
    (isWeekClosed stdId s1, s1)

/-- `getAllTransactions`. -/
def getAllTransactions (s : St) : List Transaction := s.transactions

/-- The per-element predicate of the `filter` inside `getTransactionsByWeek`
for the current week, threading the storage state the predicate mutates. -/
def currentWeekTxFilter (wid : Nat) (cwStart cwEnd : Ms) :
    List Transaction → St → List Transaction × St
  | [], s => ([], s)
  | t :: ts, s =>
    if t.weekId = wid then
      let keep := !isWeekClosed t.weekId s
      let (rest, s') := currentWeekTxFilter wid cwStart cwEnd ts s
      (if keep then t :: rest else rest, s')
    else
      let (c1, s1) := isTransactionInClosedWeek t s
      if c1 then
        let (rest, s') := currentWeekTxFilter wid cwStart cwEnd ts s1
        (rest, s')
      else if DatesService.isDateInCurrentWeekPeriod t.date cwStart cwEnd then
        let (c2, s2) := isTransactionInClosedWeek t s1
        let (rest, s') := currentWeekTxFilter wid cwStart cwEnd ts s2
        (if c2 then rest else t :: rest, s')
      else
        let (rest, s') := currentWeekTxFilter wid cwStart cwEnd ts s1
        (rest, s')

/-- `getTransactionsByWeek`: plain weekId filter, except for the current week,
where period membership and closed-week checks also apply. -/
def getTransactionsByWeek (now : Ms) (wid : Nat) (s : St) : List Transaction × St :=
  let txs := getAllTransactions s
  let (cid, s1) := getCurrentWeekId now s
  if wid = cid then
    let cwStart := getCurrentWeekStartDate now s1
    let cwEnd := getCurrentWeekEndDate now s1
    currentWeekTxFilter wid cwStart cwEnd txs s1
  else
    (txs.filter (fun t => t.weekId = wid), s1)

/-- The second filter of `getCurrentWeekTransactions`. -/
def currentWeekTxFilter2 (cid : Nat) :
    List Transaction → St → List Transaction × St
  | [], s => ([], s)
  | t :: ts, s =>
    if t.weekId = cid then
      let (rest, s') := currentWeekTxFilter2 cid ts s
      (t :: rest, s')
    else
      let (c, s1) := isTransactionInClosedWeek t s
      let (rest, s') := currentWeekTxFilter2 cid ts s1
      (if c then rest else t :: rest, s')

/-- `getCurrentWeekTransactions`: empty when the current week is closed,
otherwise the current week's transactions filtered once more against closed
weeks. -/
def getCurrentWeekTransactions (now : Ms) (s : St) : List Transaction × St :=
  let (cid, s1) := getCurrentWeekId now s
  if isWeekClosed cid s1 then ([], s1)
  else
    let (txs, s2) := getTransactionsByWeek now cid s1
    currentWeekTxFilter2 cid txs s2

/-- `calculateTotal`. -/
def calculateTotal (txs : List Transaction) : Rat :=
  txs.foldl (fun acc t => acc + t.amount) 0

/-- `createTransaction`.  Validations first; then the current week's bounds
and id are read (the id read may lazily persist a re-derived pointer); a
closed current week is rejected; an Invalid Date then aborts inside
`getOrCreateWeekId` (`toISOString` raises); otherwise the attribution
precedence picks the weekId and the entry is appended. -/
def createTransaction (now : Ms) (description : List Char) (amount : Rat)
    (dateStr : DateStr) (s : St) : Except Err Transaction × St :=
  if jsTrim description = [] then (.error .emptyDescription, s)
  else if amount ≤ 0 then (.error .nonPositiveAmount, s)
  else if dateStr.isEmpty then (.error .missingDate, s)
  else
    let cwStart := getCurrentWeekStartDate now s
    let cwEnd := getCurrentWeekEndDate now s
    let (cid, s1) := getCurrentWeekId now s
    if isWeekClosed cid s1 then (.error .closedWeek, s1)
    else
      match dateStr.parsed with
      | none => (.error .invalidTimeValue, s1)
      | some date =>
        let (stdId, s2) := getOrCreateWeekId (DatesService.getWeekStart date) s1
        let inPeriod := DatesService.isDateInCurrentWeekPeriod date cwStart cwEnd
        let stdClosed := isWeekClosed stdId s2
        let todayOrFuture := midnight now ≤ midnight date
        let wid :=
          if todayOrFuture && !isWeekClosed cid s2 then cid
          else if inPeriod then cid
          else if stdClosed then cid
          else stdId
        let (tid, s3) := generateWeekId s2
        let tx : Transaction :=
          { id := tid, description := jsTrim description, amount := amount,
            date := date, weekId := wid, createdAt := now }
        (.ok tx, { s3 with transactions := s3.transactions ++ [tx] })

/-- The tail of `closeWeek` after the closed-set write has been verified:
derive the next close date and (for a manual close) the new current week,
including the final sanity check against a closed new week. -/
def closeWeekFinish (now : Ms) (nextCloseDate : Option Ms) (isManual : Bool)
    (s2 : St) : Except Err Bool × St :=
  let closeDate := midnight now
  let dow := (getAutoCloseConfig s2).dayOfWeek
  if isManual then
    let currentNextCloseDate := s2.nextCloseDate
    let newNextDay := DatesService.getNextDayOfWeekAfter now dow
    let newWeekStartDate := closeDate
    let (newWeekId, s3) := generateWeekId s2
    let s4 : St :=
      { s3 with weekIdMapping := objSet s3.weekIdMapping newWeekId (toDateKey newWeekStartDate) }
    let afterSched : Except Err St :=
      match currentNextCloseDate with
      | some cncd =>
        if closeDate < midnight cncd then
          .ok (setCurrentWeekStart newWeekStartDate (some newWeekId) s4)
        else
          match setNextCloseDate now newNextDay s4 with
          | .error e => .error e
          | .ok s5 => .ok (setCurrentWeekStart newWeekStartDate (some newWeekId) s5)
      | none =>
        match setNextCloseDate now newNextDay s4 with
        | .error e => .error e
        | .ok s5 => .ok (setCurrentWeekStart newWeekStartDate (some newWeekId) s5)
    match afterSched with
    | .error e => (.error e, s4)
    | .ok s6 =>
      let (finalWeekId, s7) := getCurrentWeekId now s6
      if isWeekClosed finalWeekId s7 then
        let adjustedDate := newWeekStartDate + dayMs
        let (adjustedWeekId, s8) := generateWeekId s7
        (.ok true, setCurrentWeekStart adjustedDate (some adjustedWeekId) s8)
      else (.ok true, s7)
  else
    match nextCloseDate with
    | some ncd =>
      match setNextCloseDate now ncd s2 with
      | .error e => (.error e, s2)
      | .ok s3 => (.ok true, s3)
    | none =>
      let nextDay := DatesService.getNextDayOfWeekAfter now dow
      match setNextCloseDate now nextDay s2 with
      | .error e => (.error e, s2)
      | .ok s3 => (.ok true, s3)

/-- The body of `closeWeek` once the target week is determined: append to the
closed set, verify the write took effect, then `closeWeekFinish`.  `persistOk`
says whether the `localStorage` write of the closed set takes effect
(`StorageService.set` swallows storage failures and leaves the stored value
unchanged). -/
def closeWeekBody (persistOk : Bool) (now : Ms) (nextCloseDate : Option Ms)
    (isManual : Bool) (targetWeekId : Nat) (s : St) : Except Err Bool × St :=
  let closedWeeks := getClosedWeeks s
  if closedWeeks.contains targetWeekId then
    if isManual then (.error .alreadyClosed, s) else (.ok false, s)
  else
    let s2 : St :=
      { s with closedWeeks := if persistOk then closedWeeks ++ [targetWeekId] else closedWeeks }
    if !(getClosedWeeks s2).contains targetWeekId then (.error .persistenceInconsistency, s2)
    else closeWeekFinish now nextCloseDate isManual s2

/-- `closeWeek(weekId?, nextCloseDate?, isManual)`.  Manual with no weekId
targets the current week and throws when it is already closed; otherwise the
given weekId (or the current week) is targeted and an already-closed target is
a `false` no-op. -/
def closeWeek (persistOk : Bool) (now : Ms) (weekId : Option Nat)
    (nextCloseDate : Option Ms) (isManual : Bool) (s : St) : Except Err Bool × St :=
  if isManual && weekId.isNone then
    let (tid, s1) := getCurrentWeekId now s
    if isWeekClosed tid s1 then (.error .alreadyClosed, s1)
    else closeWeekBody persistOk now nextCloseDate isManual tid s1
  else
    match weekId with
    | some w =>
      if isWeekClosed w s then (.ok false, s)
      else closeWeekBody persistOk now nextCloseDate isManual w s
    | none =>
      let (tid, s1) := getCurrentWeekId now s
      if isWeekClosed tid s1 then (.ok false, s1)
      else closeWeekBody persistOk now nextCloseDate isManual tid s1

/-- `isCurrentWeekClosed`. -/
def isCurrentWeekClosed (now : Ms) (s : St) : Bool × St :=
  let (cid, s1) := getCurrentWeekId now s
  (isWeekClosed cid s1, s1)

/-- `checkAndAutoCloseWeek`: fires when the schedule is enabled, today is the
configured weekday, the hour is at or past the configured hour, and the
current week is open; it then closes the current week automatically and moves
the current week pointer to a freshly generated id starting today. -/
def checkAndAutoCloseWeek (persistOk : Bool) (now : Ms) (s : St) : Except Err Bool × St :=
  let config := getAutoCloseConfig s
  if !config.enabled then (.ok false, s)
  else if weekday now = config.dayOfWeek && hourOf now ≥ config.hour then
    let (cid, s1) := getCurrentWeekId now s
    if !isWeekClosed cid s1 then
      let closeDate := midnight now
      let nextDay := DatesService.getNextDayOfWeekAfter now config.dayOfWeek
      let (newWeekId, s2) := generateWeekId s1
      match closeWeek persistOk now (some cid) (some nextDay) false s2 with
      | (.ok closed, s3) =>
        if closed then (.ok true, setCurrentWeekStart closeDate (some newWeekId) s3)
        else (.ok false, s3)
      | (.error e, s3) => (.error e, s3)
    else (.ok false, s1)
  else (.ok false, s)

/-- One history entry of `getWeeksHistory`.  The displayed period string is
represented by the pair of timestamps handed to the date formatter (`none`
when the source renders the placeholder text). -/
structure WeekInfo where
  weekId : Nat
  period : Option (Ms × Ms)
  total : Rat
  transactionCount : Nat
  isClosed : Bool
  weekStart : Ms
deriving Repr, DecidableEq

/-- JS `Set` insertion order: keep the first occurrence of each element. -/
def dedupFirst (l : List Nat) : List Nat :=
  l.foldl (fun acc x => if acc.contains x then acc else acc ++ [x]) []

/-- Insert into a list kept in descending `weekStart` order (stable, matching
`sort((a, b) => b.weekStart - a.weekStart)`). -/
def insertDescByStart (w : WeekInfo) : List WeekInfo → List WeekInfo
  | [] => [w]
  | x :: xs =>
    if w.weekStart ≤ x.weekStart then x :: insertDescByStart w xs
    else w :: x :: xs

/-- Sort descending by `weekStart`. -/
def sortDescByStart : List WeekInfo → List WeekInfo
  | [] => []
  | x :: xs => insertDescByStart x (sortDescByStart xs)

/-- The per-weekId map step of `getWeeksHistory`. -/
def historyEntry (now : Ms) (wid : Nat) (s : St) : WeekInfo × St :=
  let (txs, s1) := getTransactionsByWeek now wid s
  let total := calculateTotal txs
  let isClosed := isWeekClosed wid s1
  let wkStart := getWeekStartDateById wid s1
  let period : Option (Ms × Ms) :=
    match wkStart with
    | some ws => some (ws, DatesService.getWeekEnd ws)
    | none =>
      match txs with
      | t :: _ =>
        let f := DatesService.getWeekStart t.date
        some (f, DatesService.getWeekEnd f)
      | [] => none
  ({ weekId := wid, period := period, total := total,
     transactionCount := txs.length, isClosed := isClosed,
     weekStart := wkStart.getD 0 }, s1)

/-- Map `historyEntry` over the weekIds, threading state. -/
def historyEntries (now : Ms) : List Nat → St → List WeekInfo × St
  | [], s => ([], s)
  | wid :: ws, s =>
    let (e, s1) := historyEntry now wid s
    let (rest, s2) := historyEntries now ws s1
    (e :: rest, s2)

/-- `getWeeksHistory(limit)`: all weekIds from the closed set and the
transaction log, each with total/count/closed flag, weeks without a usable
start date removed, sorted descending by start date, truncated to `limit`. -/
def getWeeksHistory (now : Ms) (limit : Nat) (s : St) : List WeekInfo × St :=
  let allWeekIds := dedupFirst (getClosedWeeks s ++ (getAllTransactions s).map (·.weekId))
  let (infos, s') := historyEntries now allWeekIds s
  ((sortDescByStart (infos.filter (fun w => 0 < w.weekStart))).take limit, s')

/-- `isDateInClosedWeek`. -/
def isDateInClosedWeek (date : Ms) (s : St) : Bool × St :=
  let (wid, s1) := getOrCreateWeekId (DatesService.getWeekStart date) s
  (isWeekClosed wid s1, s1)

/-- `getWeeklyLimit`. -/
def getWeeklyLimit (s : St) : Option Rat := s.weeklyLimit

/-- `setWeeklyLimit`. -/
def setWeeklyLimit (limit : Option Rat) (s : St) : Except Err St :=
  match limit with
  | none => .ok { s with weeklyLimit := none }
  | some v => if v ≤ 0 then .error .nonPositiveAmount else .ok { s with weeklyLimit := some v }

end FinanceService

/-! ## Arithmetic facts about the calendar utility -/

theorem dayNum_mul_add (a r : Int) (h0 : 0 ≤ r) (h1 : r < dayMs) :
    dayNum (a * dayMs + r) = a := by
  unfold dayNum
  rw [show a * dayMs + r = r + dayMs * a by ring,
    Int.add_mul_ediv_left _ _ (by decide : (dayMs : Int) ≠ 0)]
  have : r / dayMs = 0 := Int.ediv_eq_zero_of_lt h0 h1
  omega

theorem midnight_mul_add (a r : Int) (h0 : 0 ≤ r) (h1 : r < dayMs) :
    midnight (a * dayMs + r) = a * dayMs := by
  unfold midnight
  rw [dayNum_mul_add a r h0 h1]

/-- The normalized weekday offset chosen by `getNextDayOfWeekAfter`. -/
def nextDiff (t : Ms) (k : Int) : Int :=
  if k - weekday t ≤ 0 then k - weekday t + 7 else k - weekday t

theorem getNextDayOfWeekAfter_eq (t : Ms) (k : Int) :
    DatesService.getNextDayOfWeekAfter t k = (dayNum t + nextDiff t k) * dayMs + noonMs := by
  unfold DatesService.getNextDayOfWeekAfter nextDiff midnight
  by_cases h : k - weekday t ≤ 0 <;> simp [h] <;> ring

theorem weekday_nonneg (t : Ms) : 0 ≤ weekday t :=
  Int.emod_nonneg _ (by decide)

theorem weekday_lt (t : Ms) : weekday t < 7 :=
  Int.emod_lt_of_pos _ (by decide)

theorem nextDiff_pos (t : Ms) (k : Int) (hk0 : 0 ≤ k) : 0 < nextDiff t k := by
  have h1 := weekday_lt t
  unfold nextDiff
  split <;> omega

theorem nextDiff_le (t : Ms) (k : Int) (hk7 : k < 7) : nextDiff t k ≤ 7 := by
  have h1 := weekday_nonneg t
  unfold nextDiff
  split <;> omega

theorem dayNum_getNextDayOfWeekAfter (t : Ms) (k : Int) :
    dayNum (DatesService.getNextDayOfWeekAfter t k) = dayNum t + nextDiff t k := by
  rw [getNextDayOfWeekAfter_eq]
  exact dayNum_mul_add _ _ (by decide) (by decide)

theorem weekday_getNextDayOfWeekAfter (t : Ms) (k : Int) (hk0 : 0 ≤ k) (hk7 : k < 7) :
    weekday (DatesService.getNextDayOfWeekAfter t k) = k := by
  have hq := Int.emod_add_ediv (dayNum t + 4) 7
  unfold weekday weekdayOfDay
  rw [dayNum_getNextDayOfWeekAfter]
  have hw : weekday t = (dayNum t + 4) % 7 := rfl
  unfold nextDiff
  split
  · rw [show dayNum t + (k - weekday t + 7) + 4
        = k + 7 * ((dayNum t + 4) / 7 + 1) by rw [hw]; omega,
      Int.add_mul_emod_self_left]
    exact Int.emod_eq_of_lt hk0 hk7
  · rw [show dayNum t + (k - weekday t) + 4
        = k + 7 * ((dayNum t + 4) / 7) by rw [hw]; omega,
      Int.add_mul_emod_self_left]
    exact Int.emod_eq_of_lt hk0 hk7

theorem midnight_getNextDayOfWeekAfter_gt (t : Ms) (k : Int) (hk0 : 0 ≤ k) :
    midnight t < midnight (DatesService.getNextDayOfWeekAfter t k) := by
  have h1 := nextDiff_pos t k hk0
  rw [getNextDayOfWeekAfter_eq, midnight_mul_add _ _ (by decide) (by decide)]
  unfold midnight
  have : (0 : Int) < dayMs := by decide
  nlinarith [this, h1]

/-- C10: for every date `t` and weekday `k` in `0..6`,
`getNextDayOfWeekAfter t k` falls on the smallest calendar day strictly after
`t`'s day whose weekday is `k`; in particular it is never on `t`'s own day. -/
theorem C10_getNextDayOfWeekAfter_least (t : Ms) (k : Int) (hk0 : 0 ≤ k) (hk7 : k < 7) :
    dayNum t < dayNum (DatesService.getNextDayOfWeekAfter t k) ∧
    weekday (DatesService.getNextDayOfWeekAfter t k) = k ∧
    ∀ n : Int, dayNum t < n → n < dayNum (DatesService.getNextDayOfWeekAfter t k) →
      weekdayOfDay n ≠ k := by
  have hpos := nextDiff_pos t k hk0
  have hle := nextDiff_le t k hk7
  have hdn := dayNum_getNextDayOfWeekAfter t k
  refine ⟨by omega, weekday_getNextDayOfWeekAfter t k hk0 hk7, ?_⟩
  intro n h1 h2 hcontra
  have hwk : (dayNum t + nextDiff t k + 4) % 7 = k := by
    have := weekday_getNextDayOfWeekAfter t k hk0 hk7
    unfold weekday weekdayOfDay at this
    rwa [hdn] at this
  unfold weekdayOfDay at hcontra
  have hsub : (dayNum t + nextDiff t k + 4 - (n + 4)) % 7 = 0 := by
    rw [Int.sub_emod, hwk, hcontra]
    simp
  rw [show dayNum t + nextDiff t k + 4 - (n + 4) = dayNum t + nextDiff t k - n by ring] at hsub
  rw [hdn] at h2
  rw [Int.emod_eq_of_lt (by omega) (by omega)] at hsub
  omega

/-- Witness for C10: the theorem applied at the epoch and Sunday. -/
theorem C10_witness :
    ((0 : Int) ≤ 0 ∧ (0 : Int) < 7) ∧
    (dayNum 0 < dayNum (DatesService.getNextDayOfWeekAfter 0 0) ∧
     weekday (DatesService.getNextDayOfWeekAfter 0 0) = 0 ∧
     ∀ n : Int, dayNum 0 < n → n < dayNum (DatesService.getNextDayOfWeekAfter 0 0) →
       weekdayOfDay n ≠ 0) :=
  ⟨⟨le_refl 0, by decide⟩, C10_getNextDayOfWeekAfter_least 0 0 (le_refl 0) (by decide)⟩

/-! ## Preservation facts for the state-threading helpers -/

namespace FinanceService

theorem getOrCreateWeekId_fields (ws : Ms) (s : St) :
    ((getOrCreateWeekId ws s).2.transactions = s.transactions ∧
     (getOrCreateWeekId ws s).2.closedWeeks = s.closedWeeks) ∧
    ((getOrCreateWeekId ws s).2.currentWeekStart = s.currentWeekStart ∧
     (getOrCreateWeekId ws s).2.currentWeekId = s.currentWeekId) ∧
    ((getOrCreateWeekId ws s).2.nextCloseDate = s.nextCloseDate ∧
     (getOrCreateWeekId ws s).2.autoCloseConfig = s.autoCloseConfig) := by
  unfold getOrCreateWeekId generateWeekId
  split <;> simp

theorem getCurrentWeekIdFresh_fields (now : Ms) (s : St) :
    ((getCurrentWeekIdFresh now s).2.transactions = s.transactions ∧
     (getCurrentWeekIdFresh now s).2.closedWeeks = s.closedWeeks) ∧
    ((getCurrentWeekIdFresh now s).2.currentWeekStart = s.currentWeekStart ∧
     (getCurrentWeekIdFresh now s).2.nextCloseDate = s.nextCloseDate) ∧
    (getCurrentWeekIdFresh now s).2.autoCloseConfig = s.autoCloseConfig := by
  unfold getCurrentWeekIdFresh
  have h := getOrCreateWeekId_fields (getCurrentWeekStartDate now s) s
  simp only []
  exact ⟨⟨h.1.1, h.1.2⟩, ⟨h.2.1.1, h.2.2.1⟩, h.2.2.2⟩

theorem getCurrentWeekId_fields (now : Ms) (s : St) :
    ((getCurrentWeekId now s).2.transactions = s.transactions ∧
     (getCurrentWeekId now s).2.closedWeeks = s.closedWeeks) ∧
    ((getCurrentWeekId now s).2.currentWeekStart = s.currentWeekStart ∧
     (getCurrentWeekId now s).2.nextCloseDate = s.nextCloseDate) ∧
    (getCurrentWeekId now s).2.autoCloseConfig = s.autoCloseConfig := by
  unfold getCurrentWeekId
  split
  · split
    · split
      · exact ⟨⟨rfl, rfl⟩, ⟨rfl, rfl⟩, rfl⟩
      · exact getCurrentWeekIdFresh_fields now s
    · exact getCurrentWeekIdFresh_fields now s
  · exact getCurrentWeekIdFresh_fields now s

end FinanceService

/-! ## Claims about createTransaction validation and closed-week rejection -/

/-- A freshly installed ledger: nothing stored yet. -/
def emptySt : St :=
  { transactions := [], closedWeeks := [], weekIdMapping := [],
    currentWeekStart := none, currentWeekId := none, nextCloseDate := none,
    autoCloseConfig := none, weeklyLimit := none, gensym := 0 }

/-- C8 counterexample: with an open current week, a non-empty `dateString`
that does not parse (`new Date` gives an Invalid Date) is not caught by the
validation checks; `createTransaction` instead aborts with the `RangeError`
raised by `toISOString()` inside `getOrCreateWeekId`, so the claim that every
missing-or-unparseable date yields a `ValidationError` is false. -/
theorem C8_counterexample :
    (FinanceService.createTransaction 0 ['x'] 1 ⟨false, none⟩ emptySt).1
        = .error .invalidTimeValue ∧
    Err.invalidTimeValue ≠ Err.emptyDescription ∧
    Err.invalidTimeValue ≠ Err.nonPositiveAmount ∧
    Err.invalidTimeValue ≠ Err.missingDate := by
  refine ⟨by decide, by decide, by decide, by decide⟩

/-- C8 (amended): `createTransaction` fails with the empty-description
validation error exactly when the description trims to empty, with the
non-positive-amount error exactly when that check passes and the amount is
not positive, and with the missing-date error exactly when both pass and the
`dateString` is falsy; in each of these cases the state is untouched.  A
non-empty unparseable `dateString` is not validated (it fails later, after
the closed-week check, with a range error). -/
theorem C8_createTransaction_validation (now : Ms) (desc : List Char) (amount : Rat)
    (ds : DateStr) (s : St) :
    ((FinanceService.createTransaction now desc amount ds s).1
        = .error .emptyDescription ↔ jsTrim desc = []) ∧
    ((FinanceService.createTransaction now desc amount ds s).1
        = .error .nonPositiveAmount ↔ (jsTrim desc ≠ [] ∧ amount ≤ 0)) ∧
    ((FinanceService.createTransaction now desc amount ds s).1
        = .error .missingDate ↔ (jsTrim desc ≠ [] ∧ ¬amount ≤ 0 ∧ ds.isEmpty = true)) ∧
    ((FinanceService.createTransaction now desc amount ds s).2
        = if jsTrim desc = [] ∨ amount ≤ 0 ∨ ds.isEmpty = true then s
          else (FinanceService.createTransaction now desc amount ds s).2) := by
  unfold FinanceService.createTransaction
  by_cases h1 : jsTrim desc = [] <;> by_cases h2 : amount ≤ 0 <;>
    by_cases h3 : ds.isEmpty <;> simp [h1, h2, h3]
  all_goals try split
  all_goals try simp
  all_goals (split <;> simp)

/-- C3: when the current week is closed, `createTransaction` (with inputs that
pass validation) fails with the closed-week error and appends nothing to the
transaction log, whatever the entry date is — the rejection happens before any
attribution rule, including the today-or-future rule. -/
theorem C3_closedWeek_rejection (now : Ms) (desc : List Char) (amount : Rat)
    (ds : DateStr) (s : St)
    (hdesc : jsTrim desc ≠ []) (hamt : ¬amount ≤ 0) (hds : ds.isEmpty = false)
    (hclosed : FinanceService.isWeekClosed (FinanceService.getCurrentWeekId now s).1
        (FinanceService.getCurrentWeekId now s).2 = true) :
    (FinanceService.createTransaction now desc amount ds s).1 = .error .closedWeek ∧
    (FinanceService.createTransaction now desc amount ds s).2.transactions
        = s.transactions := by
  unfold FinanceService.createTransaction
  simp [hdesc, hamt, hds, hclosed, (FinanceService.getCurrentWeekId_fields now s).1.1]

/-- A ledger whose current week (id 0, starting at day 0) is open. -/
def openSt : St :=
  { transactions := [], closedWeeks := [], weekIdMapping := [(0, 0)],
    currentWeekStart := some 0, currentWeekId := some 0, nextCloseDate := none,
    autoCloseConfig := none, weeklyLimit := none, gensym := 1 }

/-- A ledger whose current week (id 0, starting at day 0) is closed. -/
def closedCurrentSt : St :=
  { transactions := [], closedWeeks := [0], weekIdMapping := [(0, 0)],
    currentWeekStart := some 0, currentWeekId := some 0, nextCloseDate := none,
    autoCloseConfig := none, weeklyLimit := none, gensym := 1 }

/-- Witness for C3: rejecting a write to the concrete closed current week. -/
theorem C3_witness :
    (jsTrim ['x'] ≠ [] ∧ ¬(1 : Rat) ≤ 0 ∧ (DateStr.mk false none).isEmpty = false ∧
     FinanceService.isWeekClosed (FinanceService.getCurrentWeekId 0 closedCurrentSt).1
        (FinanceService.getCurrentWeekId 0 closedCurrentSt).2 = true) ∧
    ((FinanceService.createTransaction 0 ['x'] 1 ⟨false, none⟩ closedCurrentSt).1
        = .error .closedWeek ∧
     (FinanceService.createTransaction 0 ['x'] 1 ⟨false, none⟩ closedCurrentSt).2.transactions
        = closedCurrentSt.transactions) :=
  ⟨⟨by decide, by decide, by decide, by decide⟩,
   C3_closedWeek_rejection 0 ['x'] 1 ⟨false, none⟩ closedCurrentSt
     (by decide) (by decide) (by decide) (by decide)⟩

/-- The attribution precedence as the spec states it (rules 2-5 of §4.2,
rule 1 being the closed-week rejection): today-or-future dates go to the
current week; else dates inside the current week's period go to the current
week; else dates whose standard calendar week is closed go to the current
week; else the standard calendar week's id (created if absent) is used. -/
def specAttribution (now entryDate : Ms) (s : St) : Nat :=
  let cid := (FinanceService.getCurrentWeekId now s).1
  let s1 := (FinanceService.getCurrentWeekId now s).2
  if midnight now ≤ midnight entryDate then cid
  else if DatesService.isDateInCurrentWeekPeriod entryDate
      (FinanceService.getCurrentWeekStartDate now s)
      (FinanceService.getCurrentWeekEndDate now s) then cid
  else
    let stdId := (FinanceService.getOrCreateWeekId (DatesService.getWeekStart entryDate) s1).1
    let s2 := (FinanceService.getOrCreateWeekId (DatesService.getWeekStart entryDate) s1).2
    if FinanceService.isWeekClosed stdId s2 then cid
    else stdId

/-- C1: while the current week is open, a valid `createTransaction` call
succeeds, appends exactly one entry, and attributes it by the spec's
precedence (`specAttribution`): today-or-future first, then current-period,
then closed-standard-week redirection, else the standard calendar week's id
(created if absent). -/
theorem C1_attribution_precedence (now : Ms) (desc : List Char) (amount : Rat)
    (d : Ms) (ds : DateStr) (s : St)
    (hdesc : jsTrim desc ≠ []) (hamt : ¬amount ≤ 0)
    (hds : ds.isEmpty = false) (hparsed : ds.parsed = some d)
    (hopen : FinanceService.isWeekClosed (FinanceService.getCurrentWeekId now s).1
        (FinanceService.getCurrentWeekId now s).2 = false) :
    ∃ tx : Transaction,
      (FinanceService.createTransaction now desc amount ds s).1 = .ok tx ∧
      (FinanceService.createTransaction now desc amount ds s).2.transactions
          = s.transactions ++ [tx] ∧
      tx.weekId = specAttribution now d s ∧
      tx.description = jsTrim desc ∧ tx.amount = amount ∧ tx.date = d := by
  have hfields := FinanceService.getCurrentWeekId_fields now s
  have hoc := FinanceService.getOrCreateWeekId_fields (DatesService.getWeekStart d)
      (FinanceService.getCurrentWeekId now s).2
  unfold FinanceService.createTransaction specAttribution
  simp only [hdesc, hamt, hds, hparsed, hopen, if_neg, if_false, Bool.false_eq_true,
    ite_false, ite_true]
  have hclosed2 : FinanceService.isWeekClosed (FinanceService.getCurrentWeekId now s).1
      (FinanceService.getOrCreateWeekId (DatesService.getWeekStart d)
          (FinanceService.getCurrentWeekId now s).2).2 = false := by
    unfold FinanceService.isWeekClosed FinanceService.getClosedWeeks at hopen ⊢
    rw [hoc.1.2]
    exact hopen
  refine ⟨_, rfl, ?_, ?_, rfl, rfl, rfl⟩
  · simp [FinanceService.generateWeekId, hoc.1.1, hfields.1.1]
  · show (if _ then _ else _) = _
    rw [hclosed2]
    by_cases hmid : midnight now ≤ midnight d <;> simp [hmid]

/-- Witness for C1: a today-dated entry in the concrete open week lands in the
current week. -/
theorem C1_witness :
    (jsTrim ['x'] ≠ [] ∧ ¬(1 : Rat) ≤ 0 ∧ (DateStr.mk false (some 0)).isEmpty = false ∧
     (DateStr.mk false (some 0)).parsed = some 0 ∧
     FinanceService.isWeekClosed (FinanceService.getCurrentWeekId 0 openSt).1
        (FinanceService.getCurrentWeekId 0 openSt).2 = false) ∧
    (∃ tx : Transaction,
      (FinanceService.createTransaction 0 ['x'] 1 ⟨false, some 0⟩ openSt).1 = .ok tx ∧
      (FinanceService.createTransaction 0 ['x'] 1 ⟨false, some 0⟩ openSt).2.transactions
          = openSt.transactions ++ [tx] ∧
      tx.weekId = specAttribution 0 0 openSt ∧
      tx.description = jsTrim ['x'] ∧ tx.amount = 1 ∧ tx.date = 0) :=
  ⟨⟨by decide, by decide, by decide, by decide, by decide⟩,
   C1_attribution_precedence 0 ['x'] 1 0 ⟨false, some 0⟩ openSt
     (by decide) (by decide) (by decide) (by decide) (by decide)⟩


/-- A ledger in the configured auto-close window: schedule enabled for Sunday
12h, open current week (id 0) which started the previous Sunday (day -4). -/
def autoSt : St :=
  { transactions := [], closedWeeks := [], weekIdMapping := [(0, -4)],
    currentWeekStart := some (-4 * dayMs), currentWeekId := some 0,
    nextCloseDate := none, autoCloseConfig := some ⟨true, 0, 12⟩,
    weeklyLimit := none, gensym := 1 }

/-- Sunday (day 3) at 12:00, matching `autoSt`'s schedule. -/
def autoNow : Ms := 3 * dayMs + 12 * hourMs

/-- C5 (code bug): `checkAndAutoCloseWeek` is not idempotent within one
matching hour.  One minute after a first call fired (returning true), a second
call fires again and returns true: the first close stored a fresh
current-week id without adding it to the weekId mapping, so the second call's
`getCurrentWeekId` cannot validate it, re-derives a brand-new open id for the
same start date, and closes that week too.  Both calls are inside the same
configured Sunday-12h window. -/
theorem C5_autoClose_fires_twice :
    (FinanceService.checkAndAutoCloseWeek true autoNow autoSt).1 = .ok true ∧
    (FinanceService.checkAndAutoCloseWeek true (autoNow + 60000)
        (FinanceService.checkAndAutoCloseWeek true autoNow autoSt).2).1 = .ok true ∧
    weekday (autoNow + 60000) = (FinanceService.getAutoCloseConfig autoSt).dayOfWeek ∧
    hourOf (autoNow + 60000) = (FinanceService.getAutoCloseConfig autoSt).hour ∧
    (FinanceService.checkAndAutoCloseWeek true (autoNow + 60000)
        (FinanceService.checkAndAutoCloseWeek true autoNow autoSt).2).2.closedWeeks.length
      = 2 := by
  refine ⟨by decide, by decide, by decide, by decide, by decide⟩

/-! ## Well-formedness invariant and the grow-only extension relation -/

/-- Well-formedness of a ledger state: every weekId present anywhere is below
the id supply (the model of collision-resistant generated ids), mapping keys
are unique (JS object keys), and the closed set has no duplicates. -/
def StInv (s : St) : Prop :=
  (∀ p ∈ s.weekIdMapping, p.1 < s.gensym) ∧
  (∀ w ∈ s.closedWeeks, w < s.gensym) ∧
  (∀ w ∈ s.currentWeekId.toList, w < s.gensym) ∧
  (∀ t ∈ s.transactions, t.weekId < s.gensym) ∧
  (s.weekIdMapping.map Prod.fst).Nodup ∧
  s.closedWeeks.Nodup

instance (s : St) : Decidable (StInv s) := by
  unfold StInv
  infer_instance

/-- Grow-only evolution: the mapping is extended on the right by entries with
fresh keys, the closed set is extended on the right, and the id supply does
not go backwards. -/
def StExt (s s' : St) : Prop :=
  (∃ m, s'.weekIdMapping = s.weekIdMapping ++ m ∧ ∀ p ∈ m, s.gensym ≤ p.1) ∧
  (∃ c, s'.closedWeeks = s.closedWeeks ++ c) ∧
  s.gensym ≤ s'.gensym

theorem StExt.extRefl (s : St) : StExt s s :=
  ⟨⟨[], by simp⟩, ⟨[], by simp⟩, le_refl _⟩

theorem StExt.extTrans {a b c : St} (h1 : StExt a b) (h2 : StExt b c) : StExt a c := by
  obtain ⟨⟨m1, hm1, hf1⟩, ⟨c1, hc1⟩, hg1⟩ := h1
  obtain ⟨⟨m2, hm2, hf2⟩, ⟨c2, hc2⟩, hg2⟩ := h2
  refine ⟨⟨m1 ++ m2, by rw [hm2, hm1, List.append_assoc], ?_⟩,
    ⟨c1 ++ c2, by rw [hc2, hc1, List.append_assoc]⟩, le_trans hg1 hg2⟩
  intro p hp
  rcases List.mem_append.mp hp with h | h
  · exact hf1 p h
  · exact le_trans hg1 (hf2 p h)

namespace FinanceService

theorem objSet_fresh (m : List (Nat × Int)) (k : Nat) (v : Int)
    (h : ∀ p ∈ m, p.1 ≠ k) : objSet m k v = m ++ [(k, v)] := by
  induction m with
  | nil => rfl
  | cons p ps ih =>
    unfold objSet
    rw [if_neg (h p (by simp))]
    simp only [List.cons_append, List.cons.injEq, true_and]
    exact ih (fun q hq => h q (by simp [hq]))

theorem findWeekIdByDate_mem (m : List (Nat × Int)) (d : Int) (w : Nat)
    (h : findWeekIdByDate m d = some w) : (w, d) ∈ m := by
  induction m with
  | nil => simp [findWeekIdByDate] at h
  | cons p ps ih =>
    unfold findWeekIdByDate at h
    split at h
    · rename_i hv
      cases h
      cases p with
      | mk a b =>
        simp only at hv
        subst hv
        exact List.mem_cons_self _ _
    · exact List.mem_cons_of_mem _ (ih h)

theorem lookupMapping_objSet_self (m : List (Nat × Int)) (k : Nat) (v : Int) :
    lookupMapping (objSet m k v) k = some v := by
  induction m with
  | nil => simp [objSet, lookupMapping]
  | cons p ps ih =>
    unfold objSet
    split
    · simp [lookupMapping]
    · unfold lookupMapping
      rename_i hne
      rw [if_neg hne]
      exact ih

theorem lookupMapping_append_fresh (m ext : List (Nat × Int)) (k : Nat)
    (h : ∀ p ∈ ext, p.1 ≠ k) :
    lookupMapping (m ++ ext) k = lookupMapping m k := by
  induction m with
  | nil =>
    simp only [List.nil_append]
    induction ext with
    | nil => rfl
    | cons q qs ihq =>
      unfold lookupMapping
      rw [if_neg (h q (by simp))]
      exact ihq (fun p hp => h p (by simp [hp]))
  | cons p ps ih =>
    unfold lookupMapping
    split <;> simp_all

theorem findWeekIdByDate_append_none (m ext : List (Nat × Int)) (d : Int)
    (h : findWeekIdByDate m d = none) :
    findWeekIdByDate (m ++ ext) d = findWeekIdByDate ext d := by
  induction m with
  | nil => rfl
  | cons p ps ih =>
    simp only [findWeekIdByDate] at h
    simp only [List.cons_append, findWeekIdByDate]
    split at h
    · exact absurd h (by simp)
    · rename_i hne
      rw [if_neg hne]
      exact ih h

theorem findWeekIdByDate_append_some (m ext : List (Nat × Int)) (d : Int) (w : Nat)
    (h : findWeekIdByDate m d = some w) :
    findWeekIdByDate (m ++ ext) d = some w := by
  induction m with
  | nil => exact absurd h (by simp [findWeekIdByDate])
  | cons p ps ih =>
    simp only [findWeekIdByDate] at h
    simp only [List.cons_append, findWeekIdByDate]
    split at h
    · rename_i hv
      rw [if_pos hv]
      exact h
    · rename_i hne
      rw [if_neg hne]
      exact ih h

end FinanceService

theorem dayNum_midnight (t : Ms) : dayNum (midnight t) = dayNum t := by
  unfold midnight dayNum
  exact Int.mul_ediv_cancel _ (by decide)

theorem midnight_midnight (t : Ms) : midnight (midnight t) = midnight t := by
  show dayNum (midnight t) * dayMs = midnight t
  rw [dayNum_midnight]
  rfl

namespace FinanceService

theorem lookupMapping_of_mem (m : List (Nat × Int)) (k : Nat) (v : Int)
    (hnd : (m.map Prod.fst).Nodup) (hmem : (k, v) ∈ m) :
    lookupMapping m k = some v := by
  induction m with
  | nil => simp at hmem
  | cons p ps ih =>
    simp only [List.map_cons, List.nodup_cons] at hnd
    unfold lookupMapping
    rcases List.mem_cons.mp hmem with h | h
    · rw [← h]
      simp
    · have hk : k ∈ ps.map Prod.fst := List.mem_map.mpr ⟨(k, v), h, rfl⟩
      rw [if_neg (fun he : p.1 = k => hnd.1 (he ▸ hk))]
      exact ih hnd.2 h

theorem getOrCreateWeekId_spec (ws : Ms) (s : St) (h : StInv s) :
    StInv (getOrCreateWeekId ws s).2 ∧ StExt s (getOrCreateWeekId ws s).2 ∧
    (getOrCreateWeekId ws s).1 < (getOrCreateWeekId ws s).2.gensym ∧
    lookupMapping (getOrCreateWeekId ws s).2.weekIdMapping (getOrCreateWeekId ws s).1
      = some (toDateKey ws) ∧
    findWeekIdByDate (getOrCreateWeekId ws s).2.weekIdMapping (toDateKey ws)
      = some (getOrCreateWeekId ws s).1 := by
  obtain ⟨hmap, hcl, hcur, htx, hnd, hcnd⟩ := h
  unfold getOrCreateWeekId
  cases hf : findWeekIdByDate s.weekIdMapping (toDateKey ws) with
  | some wid =>
    have hmem := findWeekIdByDate_mem _ _ _ hf
    refine ⟨⟨hmap, hcl, hcur, htx, hnd, hcnd⟩, StExt.extRefl s, hmap _ hmem, ?_, hf⟩
    exact lookupMapping_of_mem _ _ _ hnd hmem
  | none =>
    unfold generateWeekId
    have hfresh : ∀ p ∈ s.weekIdMapping, p.1 ≠ s.gensym :=
      fun p hp => Nat.ne_of_lt (hmap p hp)
    have hobj : objSet s.weekIdMapping s.gensym (toDateKey ws)
        = s.weekIdMapping ++ [(s.gensym, toDateKey ws)] := objSet_fresh _ _ _ hfresh
    simp only [hobj]
    refine ⟨⟨?_, ?_, ?_, ?_, ?_, hcnd⟩, ⟨⟨[(s.gensym, toDateKey ws)], by simp, by simp⟩,
      ⟨[], by simp⟩, by simp⟩, by simp, ?_, ?_⟩
    · intro p hp
      rcases List.mem_append.mp hp with hp | hp
      · exact Nat.lt_succ_of_lt (hmap p hp)
      · simp at hp
        subst hp
        simp
    · exact fun w hw => Nat.lt_succ_of_lt (hcl w hw)
    · exact fun w hw => Nat.lt_succ_of_lt (hcur w hw)
    · exact fun t ht => Nat.lt_succ_of_lt (htx t ht)
    · rw [List.map_append, List.nodup_append]
      refine ⟨hnd, by simp, ?_⟩
      intro a ha
      simp only [List.map_cons, List.map_nil, List.mem_singleton]
      intro hb
      obtain ⟨p, hp, hpa⟩ := List.mem_map.mp ha
      subst hb
      exact absurd (hpa ▸ hmap p hp) (lt_irrefl _)
    · rw [← hobj]
      exact lookupMapping_objSet_self _ _ _
    · rw [findWeekIdByDate_append_none _ _ _ hf]
      simp [findWeekIdByDate]

theorem getCurrentWeekIdFresh_spec (now : Ms) (s : St) (h : StInv s) :
    StInv (getCurrentWeekIdFresh now s).2 ∧ StExt s (getCurrentWeekIdFresh now s).2 ∧
    (getCurrentWeekIdFresh now s).1 < (getCurrentWeekIdFresh now s).2.gensym ∧
    (getCurrentWeekIdFresh now s).2.currentWeekId = some (getCurrentWeekIdFresh now s).1 := by
  obtain ⟨hI, hE, hlt, _⟩ := getOrCreateWeekId_spec (getCurrentWeekStartDate now s) s h
  obtain ⟨hmap, hcl, _, htx, hnd, hcnd⟩ := hI
  unfold getCurrentWeekIdFresh
  refine ⟨⟨hmap, hcl, ?_, htx, hnd, hcnd⟩, ?_, hlt, rfl⟩
  · simpa using hlt
  · exact StExt.extTrans hE ⟨⟨[], by simp, by simp⟩, ⟨[], by simp⟩, le_refl _⟩

theorem getCurrentWeekId_spec (now : Ms) (s : St) (h : StInv s) :
    StInv (getCurrentWeekId now s).2 ∧ StExt s (getCurrentWeekId now s).2 ∧
    (getCurrentWeekId now s).1 < (getCurrentWeekId now s).2.gensym ∧
    (getCurrentWeekId now s).2.currentWeekId = some (getCurrentWeekId now s).1 := by
  unfold getCurrentWeekId
  split
  · rename_i stored hst
    split
    · split
      · rename_i hws _
        exact ⟨h, StExt.extRefl s, by simpa [hst] using h.2.2.1, hst⟩
      · exact getCurrentWeekIdFresh_spec now s h
    · exact getCurrentWeekIdFresh_spec now s h
  · exact getCurrentWeekIdFresh_spec now s h

end FinanceService

namespace FinanceService

theorem setCurrentWeekStart_some_eq (date : Ms) (w : Nat) (s : St) :
    setCurrentWeekStart date (some w) s
      = { s with currentWeekStart := some (midnight date), currentWeekId := some w } := rfl

theorem setNextCloseDate_ok (now date : Ms) (s : St)
    (h1 : DatesService.isDayOfWeek date (getAutoCloseConfig s).dayOfWeek = true)
    (h2 : ¬midnight date ≤ midnight now) :
    setNextCloseDate now date s = .ok { s with nextCloseDate := some date } := by
  unfold setNextCloseDate
  simp [h1, h2]

end FinanceService

/-- A ledger with an open current week (id 0 starting day 0) whose stored
next-close-date (Sunday, day 10, noon) is in the future but later than the
next configured occurrence of the close weekday. -/
def manualCloseSt : St :=
  { transactions := [], closedWeeks := [], weekIdMapping := [(0, 0)],
    currentWeekStart := some 0, currentWeekId := some 0,
    nextCloseDate := some (10 * dayMs + noonMs),
    autoCloseConfig := some ⟨true, 0, 12⟩, weeklyLimit := none, gensym := 1 }

/-- Friday (day 1) at noon. -/
def manualNow : Ms := 1 * dayMs + noonMs

/-- C2 counterexample: a successful manual close on Friday keeps the stored
future next-close-date (Sunday in 9 days) even though it does NOT precede the
configured next occurrence (Sunday in 2 days); by the claim the configured
next occurrence should have been persisted, so the claim's next-close-date
clause is false. -/
theorem C2_counterexample :
    (FinanceService.closeWeek true manualNow none none true manualCloseSt).1 = .ok true ∧
    manualCloseSt.nextCloseDate = some (10 * dayMs + noonMs) ∧
    midnight manualNow < midnight (10 * dayMs + noonMs) ∧
    midnight (DatesService.getNextDayOfWeekAfter manualNow
        (FinanceService.getAutoCloseConfig manualCloseSt).dayOfWeek)
      < midnight (10 * dayMs + noonMs) ∧
    (FinanceService.closeWeek true manualNow none none true manualCloseSt).2.nextCloseDate
      = some (10 * dayMs + noonMs) ∧
    some (10 * dayMs + noonMs : Ms)
      ≠ some (DatesService.getNextDayOfWeekAfter manualNow
          (FinanceService.getAutoCloseConfig manualCloseSt).dayOfWeek) := by
  refine ⟨by decide, by decide, by decide, by decide, by decide, by decide⟩
theorem closeWeekBody_manual_spec (now : Ms) (cid : Nat) (s1 : St)
    (hInv : StInv s1) (hlt : cid < s1.gensym)
    (hnm : cid ∉ s1.closedWeeks)
    (hdow0 : 0 ≤ (FinanceService.getAutoCloseConfig s1).dayOfWeek)
    (hdow7 : (FinanceService.getAutoCloseConfig s1).dayOfWeek < 7) :
    (FinanceService.closeWeekBody true now none true cid s1).1 = .ok true ∧
    (FinanceService.closeWeekBody true now none true cid s1).2.closedWeeks
        = s1.closedWeeks ++ [cid] ∧
    (FinanceService.closeWeekBody true now none true cid s1).2.currentWeekId
        = some s1.gensym ∧
    FinanceService.isWeekClosed s1.gensym
        (FinanceService.closeWeekBody true now none true cid s1).2 = false ∧
    (FinanceService.closeWeekBody true now none true cid s1).2.currentWeekStart
        = some (midnight now) ∧
    (FinanceService.closeWeekBody true now none true cid s1).2.nextCloseDate
        = (match s1.nextCloseDate with
           | some nc =>
             if midnight now < midnight nc then some nc
             else some (DatesService.getNextDayOfWeekAfter now
                 (FinanceService.getAutoCloseConfig s1).dayOfWeek)
           | none => some (DatesService.getNextDayOfWeekAfter now
               (FinanceService.getAutoCloseConfig s1).dayOfWeek)) := by
  have hc1 : (FinanceService.getClosedWeeks s1).contains cid = false := by
    simpa [FinanceService.getClosedWeeks] using hnm
  have hc2 : (s1.closedWeeks ++ [cid]).contains cid = true := by simp
  have hc1x : s1.closedWeeks.contains cid = false := by simpa using hnm
  have hnot : s1.gensym ∉ s1.closedWeeks ++ [cid] := by
    intro hmem
    rcases List.mem_append.mp hmem with h | h
    · exact absurd (hInv.2.1 _ h) (lt_irrefl _)
    · rw [List.mem_singleton] at h
      exact Nat.ne_of_gt hlt h
  have hnotc : (s1.closedWeeks ++ [cid]).contains s1.gensym = false := by simpa using hnot
  have hkey : FinanceService.toDateKey (midnight now) * dayMs = midnight now := by
    unfold FinanceService.toDateKey
    rw [dayNum_midnight]
    rfl
  have hday : DatesService.isDayOfWeek (DatesService.getNextDayOfWeekAfter now
      ((s1.autoCloseConfig.getD defaultAutoCloseConfig).dayOfWeek))
      ((s1.autoCloseConfig.getD defaultAutoCloseConfig).dayOfWeek) = true := by
    have h0 : 0 ≤ (s1.autoCloseConfig.getD defaultAutoCloseConfig).dayOfWeek := hdow0
    have h7 : (s1.autoCloseConfig.getD defaultAutoCloseConfig).dayOfWeek < 7 := hdow7
    simp [DatesService.isDayOfWeek, weekday_getNextDayOfWeekAfter _ _ h0 h7]
  have hfut : ¬(midnight (DatesService.getNextDayOfWeekAfter now
      ((s1.autoCloseConfig.getD defaultAutoCloseConfig).dayOfWeek)) ≤ midnight now) := by
    exact not_le.mpr (midnight_getNextDayOfWeekAfter_gt now
      ((s1.autoCloseConfig.getD defaultAutoCloseConfig).dayOfWeek) hdow0)
  unfold FinanceService.closeWeekBody FinanceService.closeWeekFinish
  simp only [FinanceService.getClosedWeeks, hc1x, Bool.false_eq_true, ite_false, if_false,
    if_true, hc2, Bool.not_true, FinanceService.generateWeekId]
  cases hnc : s1.nextCloseDate with
  | none =>
    simp only [FinanceService.setNextCloseDate, FinanceService.getAutoCloseConfig, hnc]
    simp only [hday, Bool.not_true, Bool.false_eq_true, ite_false, if_false]
    rw [if_neg hfut]
    simp only [FinanceService.setCurrentWeekStart_some_eq]
    simp only [FinanceService.getCurrentWeekId, FinanceService.getWeekStartDateById,
      FinanceService.lookupMapping_objSet_self, Option.map_some', hkey, midnight_midnight,
      FinanceService.getCurrentWeekStartDate, FinanceService.isWeekClosed,
      FinanceService.getClosedWeeks, hnotc, Bool.false_eq_true, ite_false, if_false,
      ite_true, if_pos rfl]
    simp
  | some nc =>
    by_cases hlt2 : midnight now < midnight nc
    · simp only [hlt2, ite_true]
      simp only [FinanceService.setCurrentWeekStart_some_eq]
      simp only [FinanceService.getCurrentWeekId, FinanceService.getWeekStartDateById,
        FinanceService.lookupMapping_objSet_self, Option.map_some', hkey, midnight_midnight,
        FinanceService.getCurrentWeekStartDate, FinanceService.isWeekClosed,
        FinanceService.getClosedWeeks, hnotc, Bool.false_eq_true, ite_false, if_false,
        ite_true, if_pos rfl]
      simp [hlt2]
    · simp only [hlt2, ite_false]
      simp only [FinanceService.setNextCloseDate, FinanceService.getAutoCloseConfig]
      simp only [hday, Bool.not_true, Bool.false_eq_true, ite_false, if_false]
      rw [if_neg hfut]
      simp only [FinanceService.setCurrentWeekStart_some_eq]
      simp only [FinanceService.getCurrentWeekId, FinanceService.getWeekStartDateById,
        FinanceService.lookupMapping_objSet_self, Option.map_some', hkey, midnight_midnight,
        FinanceService.getCurrentWeekStartDate, FinanceService.isWeekClosed,
        FinanceService.getClosedWeeks, hnotc, Bool.false_eq_true, ite_false, if_false,
        ite_true, if_pos rfl]
      simp [hlt2]

/-- C2 (amended): a successful manual close of an open current week appends
the old current id to the closed set, moves the pointer to a freshly
generated id (not previously closed, distinct from the old id, and still
open afterwards) whose start is today's midnight, and persists as next close
date: the stored date when it is strictly in the future (whether or not it
precedes the configured next occurrence), otherwise the next occurrence of
the configured weekday strictly after now. -/
theorem C2_manualClose_amended (now : Ms) (s : St) (hInv : StInv s)
    (hdow0 : 0 ≤ (FinanceService.getAutoCloseConfig s).dayOfWeek)
    (hdow7 : (FinanceService.getAutoCloseConfig s).dayOfWeek < 7)
    (hopen : FinanceService.isWeekClosed (FinanceService.getCurrentWeekId now s).1
        (FinanceService.getCurrentWeekId now s).2 = false) :
    (FinanceService.closeWeek true now none none true s).1 = .ok true ∧
    (FinanceService.closeWeek true now none none true s).2.closedWeeks
        = s.closedWeeks ++ [(FinanceService.getCurrentWeekId now s).1] ∧
    (∃ nid : Nat,
      (FinanceService.closeWeek true now none none true s).2.currentWeekId = some nid ∧
      nid ∉ s.closedWeeks ∧ nid ≠ (FinanceService.getCurrentWeekId now s).1 ∧
      FinanceService.isWeekClosed nid (FinanceService.closeWeek true now none none true s).2
        = false) ∧
    (FinanceService.closeWeek true now none none true s).2.currentWeekStart
        = some (midnight now) ∧
    (FinanceService.closeWeek true now none none true s).2.nextCloseDate
        = (match s.nextCloseDate with
           | some nc =>
             if midnight now < midnight nc then some nc
             else some (DatesService.getNextDayOfWeekAfter now
                 (FinanceService.getAutoCloseConfig s).dayOfWeek)
           | none => some (DatesService.getNextDayOfWeekAfter now
               (FinanceService.getAutoCloseConfig s).dayOfWeek)) := by
  obtain ⟨hInv1, hExt1, hlt1, hcur1⟩ := FinanceService.getCurrentWeekId_spec now s hInv
  have hfields := FinanceService.getCurrentWeekId_fields now s
  have hpair : FinanceService.getCurrentWeekId now s
      = ((FinanceService.getCurrentWeekId now s).1, (FinanceService.getCurrentWeekId now s).2) := rfl
  unfold FinanceService.closeWeek
  rw [hpair]
  simp only [Option.isNone_none, Bool.and_true, if_true, hopen, Bool.false_eq_true, ite_false]
  have hnm : (FinanceService.getCurrentWeekId now s).1
      ∉ (FinanceService.getCurrentWeekId now s).2.closedWeeks := by
    simpa [FinanceService.isWeekClosed, FinanceService.getClosedWeeks] using hopen
  have hcfg : FinanceService.getAutoCloseConfig (FinanceService.getCurrentWeekId now s).2
      = FinanceService.getAutoCloseConfig s := by
    unfold FinanceService.getAutoCloseConfig
    rw [hfields.2.2]
  obtain ⟨hb1, hb2, hb3, hb4, hb5, hb6⟩ := closeWeekBody_manual_spec now
    (FinanceService.getCurrentWeekId now s).1 (FinanceService.getCurrentWeekId now s).2
    hInv1 hlt1 hnm (hcfg ▸ hdow0) (hcfg ▸ hdow7)
  refine ⟨hb1, by rw [hb2, hfields.1.2], ?_, hb5, ?_⟩
  · refine ⟨(FinanceService.getCurrentWeekId now s).2.gensym, hb3, ?_, ?_, hb4⟩
    · rw [← hfields.1.2]
      intro hmem
      exact absurd (hInv1.2.1 _ hmem) (lt_irrefl _)
    · exact fun he => absurd (he ▸ hlt1) (lt_irrefl _)
  · rw [hb6, hfields.2.1.2, hcfg]

/-- Witness for C2 (amended): manual close of the concrete open week at the
epoch instant. -/
theorem C2_witness :
    (StInv openSt ∧
     0 ≤ (FinanceService.getAutoCloseConfig openSt).dayOfWeek ∧
     (FinanceService.getAutoCloseConfig openSt).dayOfWeek < 7 ∧
     FinanceService.isWeekClosed (FinanceService.getCurrentWeekId 0 openSt).1
        (FinanceService.getCurrentWeekId 0 openSt).2 = false) ∧
    ((FinanceService.closeWeek true 0 none none true openSt).1 = .ok true ∧
     (FinanceService.closeWeek true 0 none none true openSt).2.closedWeeks
        = openSt.closedWeeks ++ [(FinanceService.getCurrentWeekId 0 openSt).1] ∧
     (∃ nid : Nat,
       (FinanceService.closeWeek true 0 none none true openSt).2.currentWeekId = some nid ∧
       nid ∉ openSt.closedWeeks ∧ nid ≠ (FinanceService.getCurrentWeekId 0 openSt).1 ∧
       FinanceService.isWeekClosed nid
         (FinanceService.closeWeek true 0 none none true openSt).2 = false) ∧
     (FinanceService.closeWeek true 0 none none true openSt).2.currentWeekStart
        = some (midnight 0) ∧
     (FinanceService.closeWeek true 0 none none true openSt).2.nextCloseDate
        = (match openSt.nextCloseDate with
           | some nc =>
             if midnight 0 < midnight nc then some nc
             else some (DatesService.getNextDayOfWeekAfter 0
                 (FinanceService.getAutoCloseConfig openSt).dayOfWeek)
           | none => some (DatesService.getNextDayOfWeekAfter 0
               (FinanceService.getAutoCloseConfig openSt).dayOfWeek))) :=
  ⟨⟨by decide, by decide, by decide, by decide⟩,
   C2_manualClose_amended 0 openSt (by decide) (by decide) (by decide) (by decide)⟩

/-- A ledger with a stale (absent) current-week pointer whose re-derived
current week (id 5, start day 0) is already closed. -/
def staleAutoSt : St :=
  { transactions := [], closedWeeks := [5], weekIdMapping := [(5, 0)],
    currentWeekStart := some 0, currentWeekId := none, nextCloseDate := none,
    autoCloseConfig := none, weeklyLimit := none, gensym := 6 }

/-- C4 counterexample: an automatic close (`isManual = false`, weekId omitted)
of an already-closed current week returns the no-op signal `false` but DOES
modify state: resolving the current week lazily persists the re-derived
pointer, so "without modifying any state" is false as a universal claim. -/
theorem C4_counterexample :
    (FinanceService.closeWeek true 0 none none false staleAutoSt).1 = .ok false ∧
    staleAutoSt.currentWeekId = none ∧
    (FinanceService.closeWeek true 0 none none false staleAutoSt).2.currentWeekId = some 5 ∧
    (FinanceService.closeWeek true 0 none none false staleAutoSt).2 ≠ staleAutoSt := by
  refine ⟨by decide, by decide, by decide, by decide⟩

/-- C4 (amended): manual close of an already-closed current week fails with
the already-closed error; a manual close whose closed-set write does not take
effect (the re-read misses the id) fails with the persistence-inconsistency
error; an automatic close of an explicitly given already-closed week is a
`false` no-op with the state returned untouched; an automatic close with the
weekId omitted and the current week closed returns `false` without raising
and leaves the transaction log and closed set unchanged, though the lazy
re-derivation of the current-week pointer may persist pointer and mapping
updates. -/
theorem C4_closeWeek_failure_modes (pOk : Bool) (now nowb nowd : Ms) (w : Nat)
    (ncd : Option Ms) (sa sb sc sd : St)
    (ha : FinanceService.isWeekClosed (FinanceService.getCurrentWeekId now sa).1
        (FinanceService.getCurrentWeekId now sa).2 = true)
    (hb : FinanceService.isWeekClosed (FinanceService.getCurrentWeekId nowb sb).1
        (FinanceService.getCurrentWeekId nowb sb).2 = false)
    (hc : FinanceService.isWeekClosed w sc = true)
    (hd : FinanceService.isWeekClosed (FinanceService.getCurrentWeekId nowd sd).1
        (FinanceService.getCurrentWeekId nowd sd).2 = true) :
    (FinanceService.closeWeek pOk now none none true sa).1 = .error .alreadyClosed ∧
    (FinanceService.closeWeek false nowb none none true sb).1
        = .error .persistenceInconsistency ∧
    FinanceService.closeWeek pOk now (some w) ncd false sc = (.ok false, sc) ∧
    ((FinanceService.closeWeek pOk nowd none ncd false sd).1 = .ok false ∧
     (FinanceService.closeWeek pOk nowd none ncd false sd).2.transactions = sd.transactions ∧
     (FinanceService.closeWeek pOk nowd none ncd false sd).2.closedWeeks = sd.closedWeeks) := by
  refine ⟨?_, ?_, ?_, ?_⟩
  · unfold FinanceService.closeWeek
    simp [ha]
  · have hpair : FinanceService.getCurrentWeekId nowb sb
        = ((FinanceService.getCurrentWeekId nowb sb).1,
           (FinanceService.getCurrentWeekId nowb sb).2) := rfl
    have hnm : (FinanceService.getCurrentWeekId nowb sb).1
        ∉ (FinanceService.getCurrentWeekId nowb sb).2.closedWeeks := by
      simpa [FinanceService.isWeekClosed, FinanceService.getClosedWeeks] using hb
    unfold FinanceService.closeWeek
    rw [hpair]
    simp only [Option.isNone_none, Bool.and_true, if_true, hb, Bool.false_eq_true, ite_false]
    unfold FinanceService.closeWeekBody
    simp [FinanceService.getClosedWeeks, hnm]
  · unfold FinanceService.closeWeek
    simp [hc]
  · have hpair : FinanceService.getCurrentWeekId nowd sd
        = ((FinanceService.getCurrentWeekId nowd sd).1,
           (FinanceService.getCurrentWeekId nowd sd).2) := rfl
    have hfl := FinanceService.getCurrentWeekId_fields nowd sd
    unfold FinanceService.closeWeek
    rw [hpair]
    simp [hd, hfl.1.1, hfl.1.2]

/-- Witness for C4 (amended): the four scenarios at concrete states — manual
close of the closed week, manual close with a failing persistence write on
the open week, automatic close of the given closed id, and automatic close
with the id omitted. -/
theorem C4_witness :
    (FinanceService.isWeekClosed (FinanceService.getCurrentWeekId 0 closedCurrentSt).1
        (FinanceService.getCurrentWeekId 0 closedCurrentSt).2 = true ∧
     FinanceService.isWeekClosed (FinanceService.getCurrentWeekId 0 openSt).1
        (FinanceService.getCurrentWeekId 0 openSt).2 = false ∧
     FinanceService.isWeekClosed 0 closedCurrentSt = true) ∧
    ((FinanceService.closeWeek true 0 none none true closedCurrentSt).1
        = .error .alreadyClosed ∧
     (FinanceService.closeWeek false 0 none none true openSt).1
        = .error .persistenceInconsistency ∧
     FinanceService.closeWeek true 0 (some 0) none false closedCurrentSt
        = (.ok false, closedCurrentSt) ∧
     ((FinanceService.closeWeek true 0 none none false closedCurrentSt).1 = .ok false ∧
      (FinanceService.closeWeek true 0 none none false closedCurrentSt).2.transactions
          = closedCurrentSt.transactions ∧
      (FinanceService.closeWeek true 0 none none false closedCurrentSt).2.closedWeeks
          = closedCurrentSt.closedWeeks)) :=
  ⟨⟨by decide, by decide, by decide⟩,
   C4_closeWeek_failure_modes true 0 0 0 0 none closedCurrentSt openSt closedCurrentSt
     closedCurrentSt (by decide) (by decide) (by decide) (by decide)⟩

theorem St_upd_currentWeekId_self (s : St) (w : Option Nat) (h : s.currentWeekId = w) :
    { s with currentWeekId := w } = s := by
  subst h
  rfl

theorem getCurrentWeekStartDate_congr (now : Ms) (s s' : St)
    (h1 : s'.currentWeekStart = s.currentWeekStart)
    (h2 : s'.nextCloseDate = s.nextCloseDate) :
    FinanceService.getCurrentWeekStartDate now s' = FinanceService.getCurrentWeekStartDate now s := by
  unfold FinanceService.getCurrentWeekStartDate
  rw [h1, h2]

namespace FinanceService

theorem getCurrentWeekIdFresh_found (now : Ms) (s : St) (wid : Nat)
    (hfind : findWeekIdByDate s.weekIdMapping
        (toDateKey (getCurrentWeekStartDate now s)) = some wid)
    (hcw : s.currentWeekId = some wid) :
    getCurrentWeekIdFresh now s = (wid, s) := by
  unfold getCurrentWeekIdFresh getOrCreateWeekId
  simp only [hfind]
  rw [St_upd_currentWeekId_self _ _ hcw]

theorem getCurrentWeekIdFresh_idem (now : Ms) (s : St) (h : StInv s) :
    getCurrentWeekId now (getCurrentWeekIdFresh now s).2 = getCurrentWeekIdFresh now s := by
  obtain ⟨hI, hE, hlt, hcur⟩ := getCurrentWeekIdFresh_spec now s h
  obtain ⟨_, _, _, hlook, hfind⟩ := getOrCreateWeekId_spec (getCurrentWeekStartDate now s) s h
  have hflds := getCurrentWeekIdFresh_fields now s
  have hmapeq : (getCurrentWeekIdFresh now s).2.weekIdMapping
      = (getOrCreateWeekId (getCurrentWeekStartDate now s) s).2.weekIdMapping := by
    unfold getCurrentWeekIdFresh
    rfl
  have hws : getCurrentWeekStartDate now (getCurrentWeekIdFresh now s).2
      = getCurrentWeekStartDate now s :=
    getCurrentWeekStartDate_congr now s _ hflds.2.1.1 hflds.2.1.2
  have hfst : (getCurrentWeekIdFresh now s).1
      = (getOrCreateWeekId (getCurrentWeekStartDate now s) s).1 := by
    unfold getCurrentWeekIdFresh
    rfl
  have hlook2 : lookupMapping (getCurrentWeekIdFresh now s).2.weekIdMapping
      (getCurrentWeekIdFresh now s).1 = some (toDateKey (getCurrentWeekStartDate now s)) := by
    rw [hmapeq, hfst]
    exact hlook
  have hfind2 : findWeekIdByDate (getCurrentWeekIdFresh now s).2.weekIdMapping
      (toDateKey (getCurrentWeekStartDate now (getCurrentWeekIdFresh now s).2))
      = some (getCurrentWeekIdFresh now s).1 := by
    rw [hws, hmapeq, hfst]
    exact hfind
  unfold getCurrentWeekId getWeekStartDateById
  simp only [hcur, hlook2, Option.map_some']
  by_cases hal : toDateKey (getCurrentWeekStartDate now s) * dayMs
      = getCurrentWeekStartDate now (getCurrentWeekIdFresh now s).2
  · rw [if_pos hal]
  · rw [if_neg hal]
    rw [getCurrentWeekIdFresh_found now (getCurrentWeekIdFresh now s).2
      (getCurrentWeekIdFresh now s).1 hfind2 hcur]

theorem getCurrentWeekId_idem (now : Ms) (s : St) (h : StInv s) :
    getCurrentWeekId now (getCurrentWeekId now s).2 = getCurrentWeekId now s := by
  rcases hcw : s.currentWeekId with _ | st
  · have h1 : getCurrentWeekId now s = getCurrentWeekIdFresh now s := by
      unfold getCurrentWeekId
      rw [hcw]
    rw [h1]
    exact getCurrentWeekIdFresh_idem now s h
  · rcases hlk : getWeekStartDateById st s with _ | ws
    · have h1 : getCurrentWeekId now s = getCurrentWeekIdFresh now s := by
        unfold getCurrentWeekId
        rw [hcw]
        simp only [hlk]
      rw [h1]
      exact getCurrentWeekIdFresh_idem now s h
    · by_cases heq : ws = getCurrentWeekStartDate now s
      · have h1 : getCurrentWeekId now s = (st, s) := by
          unfold getCurrentWeekId
          rw [hcw]
          simp only [hlk]
          rw [if_pos heq]
        rw [h1]
        exact h1
      · have h1 : getCurrentWeekId now s = getCurrentWeekIdFresh now s := by
          unfold getCurrentWeekId
          rw [hcw]
          simp only [hlk]
          rw [if_neg heq]
        rw [h1]
        exact getCurrentWeekIdFresh_idem now s h

end FinanceService

/-- The pure reading of `isTransactionInClosedWeek`: the transaction belongs
to a closed week by its own weekId, or the standard calendar week of its date
already has a mapped weekId and that id is closed. -/
def inClosedWeekPure (t : Transaction) (s : St) : Bool :=
  FinanceService.isWeekClosed t.weekId s ||
    (match FinanceService.findWeekIdByDate s.weekIdMapping
        (FinanceService.toDateKey (DatesService.getWeekStart t.date)) with
     | some wid => FinanceService.isWeekClosed wid s
     | none => false)

/-- States reachable from `s0` by read-only queries: well-formed, same
transaction log and closed set, and a mapping extended only by entries whose
fresh ids are not in the closed set. -/
def TracksFrom (s0 s : St) : Prop :=
  StInv s ∧ s.closedWeeks = s0.closedWeeks ∧ s.transactions = s0.transactions ∧
  ∃ m, s.weekIdMapping = s0.weekIdMapping ++ m ∧ ∀ p ∈ m, p.1 ∉ s.closedWeeks

theorem TracksFrom.tracksRefl (s : St) (h : StInv s) : TracksFrom s s :=
  ⟨h, rfl, rfl, [], by simp, by simp⟩

namespace FinanceService

theorem isWeekClosed_congr (w : Nat) (s s' : St) (h : s'.closedWeeks = s.closedWeeks) :
    isWeekClosed w s' = isWeekClosed w s := by
  unfold isWeekClosed getClosedWeeks
  rw [h]

theorem inClosedWeekPure_of_tracks (t : Transaction) (s0 s : St) (h : TracksFrom s0 s) :
    inClosedWeekPure t s = inClosedWeekPure t s0 := by
  obtain ⟨hI, hcl, htx, m, hm, hfree⟩ := h
  unfold inClosedWeekPure
  rw [isWeekClosed_congr _ _ _ hcl]
  cases hf0 : findWeekIdByDate s0.weekIdMapping
      (toDateKey (DatesService.getWeekStart t.date)) with
  | some wid =>
    rw [hm, findWeekIdByDate_append_some _ _ _ _ hf0]
    show (isWeekClosed t.weekId s0 || isWeekClosed wid s)
        = (isWeekClosed t.weekId s0 || isWeekClosed wid s0)
    rw [isWeekClosed_congr _ _ _ hcl]
  | none =>
    rw [hm, findWeekIdByDate_append_none _ _ _ hf0]
    cases hfm : findWeekIdByDate m (toDateKey (DatesService.getWeekStart t.date)) with
    | some wid =>
      have hmem := findWeekIdByDate_mem _ _ _ hfm
      have hnin : wid ∉ s.closedWeeks := hfree _ hmem
      have : isWeekClosed wid s = false := by
        simpa [isWeekClosed, getClosedWeeks] using hnin
      simp [this]
    | none => rfl

theorem isTransactionInClosedWeek_tracks (t : Transaction) (s0 s : St)
    (h : TracksFrom s0 s) :
    (isTransactionInClosedWeek t s).1 = inClosedWeekPure t s0 ∧
    TracksFrom s0 (isTransactionInClosedWeek t s).2 := by
  have hpure := inClosedWeekPure_of_tracks t s0 s h
  obtain ⟨hI, hcl, htx, m, hm, hfree⟩ := h
  unfold isTransactionInClosedWeek
  cases hc : isWeekClosed t.weekId s with
  | true =>
    simp only [if_pos rfl, if_true]
    constructor
    · rw [← hpure]
      unfold inClosedWeekPure
      simp [hc]
    · exact ⟨hI, hcl, htx, m, hm, hfree⟩
  | false =>
    simp only [Bool.false_eq_true, ite_false, if_false]
    unfold getOrCreateWeekId
    cases hf : findWeekIdByDate s.weekIdMapping
        (toDateKey (DatesService.getWeekStart t.date)) with
    | some wid =>
      constructor
      · rw [← hpure]
        unfold inClosedWeekPure
        simp [hc, hf]
      · exact ⟨hI, hcl, htx, m, hm, hfree⟩
    | none =>
      unfold generateWeekId
      have hfresh : ∀ p ∈ s.weekIdMapping, p.1 ≠ s.gensym :=
        fun p hp => Nat.ne_of_lt (hI.1 p hp)
      have hobj : objSet s.weekIdMapping s.gensym
          (toDateKey (DatesService.getWeekStart t.date))
          = s.weekIdMapping ++ [(s.gensym, toDateKey (DatesService.getWeekStart t.date))] :=
        objSet_fresh _ _ _ hfresh
      have hgnc : s.gensym ∉ s.closedWeeks :=
        fun hmem => absurd (hI.2.1 _ hmem) (lt_irrefl _)
      constructor
      · rw [← hpure]
        unfold inClosedWeekPure
        simp only [hc, hf, Bool.false_or]
        show (s.closedWeeks.contains s.gensym) = false
        simpa using hgnc
      · refine ⟨?_, hcl, htx, m ++ [(s.gensym, toDateKey (DatesService.getWeekStart t.date))],
          ?_, ?_⟩
        · obtain ⟨hI2, _, _, _, _⟩ := getOrCreateWeekId_spec (DatesService.getWeekStart t.date) s hI
          unfold getOrCreateWeekId at hI2
          rw [hf] at hI2
          unfold generateWeekId at hI2
          exact hI2
        · show objSet s.weekIdMapping s.gensym (toDateKey (DatesService.getWeekStart t.date))
              = s0.weekIdMapping ++ (m ++ [(s.gensym, toDateKey (DatesService.getWeekStart t.date))])
          rw [hobj, hm, List.append_assoc]
        · intro p hp
          rcases List.mem_append.mp hp with hp | hp
          · exact hfree p hp
          · rw [List.mem_singleton] at hp
            subst hp
            exact hgnc

end FinanceService

theorem pairEta {A B : Type} (p : A × B) : p = (p.1, p.2) := rfl

namespace FinanceService

theorem currentWeekTxFilter_tracks (wid : Nat) (cwStart cwEnd : Ms) (s0 : St)
    (hw : isWeekClosed wid s0 = false) :
    ∀ (txs : List Transaction) (s : St), TracksFrom s0 s →
      (currentWeekTxFilter wid cwStart cwEnd txs s).1
        = txs.filter (fun t => t.weekId == wid
            || (!inClosedWeekPure t s0
                && DatesService.isDateInCurrentWeekPeriod t.date cwStart cwEnd)) ∧
      TracksFrom s0 (currentWeekTxFilter wid cwStart cwEnd txs s).2 := by
  intro txs
  induction txs with
  | nil => exact fun s h => ⟨rfl, h⟩
  | cons t ts ih =>
    intro s h
    unfold currentWeekTxFilter
    by_cases ht : t.weekId = wid
    · rw [if_pos ht]
      have hcw : isWeekClosed t.weekId s = false := by
        rw [isWeekClosed_congr _ _ _ h.2.1, ht]
        exact hw
      have hcw2 : isWeekClosed wid s = false := by
        rw [isWeekClosed_congr _ _ _ h.2.1]
        exact hw
      obtain ⟨hrest, htr⟩ := ih s h
      simp only [ht, hcw, hcw2, Bool.not_false, if_true, ite_true, List.filter_cons,
        beq_self_eq_true, Bool.true_or, hrest]
      exact ⟨trivial, htr⟩
    · rw [if_neg ht]
      obtain ⟨hval1, htr1⟩ := isTransactionInClosedWeek_tracks t s0 s h
      have hbeq : (t.weekId == wid) = false := by simp [ht]
      rw [pairEta (isTransactionInClosedWeek t s)]
      cases hc1 : inClosedWeekPure t s0 with
      | true =>
        rw [hval1, hc1]
        simp only [if_pos rfl, if_true]
        obtain ⟨hrest, htr⟩ := ih _ htr1
        simp only [List.filter_cons, hbeq, hc1, Bool.not_true, Bool.false_and,
          Bool.false_or, Bool.false_eq_true, ite_false, hrest]
        exact ⟨trivial, htr⟩
      | false =>
        rw [hval1, hc1]
        simp only [Bool.false_eq_true, ite_false, if_false]
        cases hper : DatesService.isDateInCurrentWeekPeriod t.date cwStart cwEnd with
        | true =>
          rw [if_pos rfl]
          obtain ⟨hval2, htr2⟩ := isTransactionInClosedWeek_tracks t s0 _ htr1
          rw [pairEta (isTransactionInClosedWeek t (isTransactionInClosedWeek t s).2)]
          rw [hval2, hc1]
          obtain ⟨hrest, htr⟩ := ih _ htr2
          simp only [Bool.false_eq_true, ite_false, if_false, List.filter_cons, hbeq,
            hc1, hper, Bool.not_false, Bool.true_and, Bool.or_true, hrest]
          exact ⟨rfl, htr⟩
        | false =>
          simp only [Bool.false_eq_true, ite_false, if_false]
          obtain ⟨hrest, htr⟩ := ih _ htr1
          simp only [List.filter_cons, hbeq, hc1, hper, Bool.not_false, Bool.true_and,
            Bool.false_or, Bool.false_eq_true, ite_false, hrest]
          exact ⟨trivial, htr⟩

theorem currentWeekTxFilter2_tracks (cid : Nat) (s0 : St) :
    ∀ (txs : List Transaction) (s : St), TracksFrom s0 s →
      (currentWeekTxFilter2 cid txs s).1
        = txs.filter (fun t => t.weekId == cid || !inClosedWeekPure t s0) ∧
      TracksFrom s0 (currentWeekTxFilter2 cid txs s).2 := by
  intro txs
  induction txs with
  | nil => exact fun s h => ⟨rfl, h⟩
  | cons t ts ih =>
    intro s h
    unfold currentWeekTxFilter2
    by_cases ht : t.weekId = cid
    · rw [if_pos ht]
      obtain ⟨hrest, htr⟩ := ih s h
      simp only [List.filter_cons, ht, beq_self_eq_true, Bool.true_or, ite_true, hrest]
      exact ⟨trivial, htr⟩
    · rw [if_neg ht]
      obtain ⟨hval1, htr1⟩ := isTransactionInClosedWeek_tracks t s0 s h
      have hbeq : (t.weekId == cid) = false := by simp [ht]
      obtain ⟨hrest, htr⟩ := ih _ htr1
      rw [pairEta (isTransactionInClosedWeek t s)]
      rw [hval1]
      cases hc1 : inClosedWeekPure t s0 with
      | true =>
        simp only [if_pos rfl, if_true, List.filter_cons, hbeq, hc1, Bool.not_true,
          Bool.or_false, Bool.false_eq_true, ite_false, hrest]
        exact ⟨trivial, htr⟩
      | false =>
        simp only [Bool.false_eq_true, ite_false, if_false, List.filter_cons, hbeq, hc1,
          Bool.not_false, Bool.or_true, ite_true, hrest]
        exact ⟨trivial, htr⟩

end FinanceService

theorem getCurrentWeekEndDate_congr (now : Ms) (s s' : St)
    (h1 : s'.currentWeekStart = s.currentWeekStart)
    (h2 : s'.nextCloseDate = s.nextCloseDate) :
    FinanceService.getCurrentWeekEndDate now s' = FinanceService.getCurrentWeekEndDate now s := by
  unfold FinanceService.getCurrentWeekEndDate
  rw [h2, getCurrentWeekStartDate_congr now s s' h1 h2]

namespace FinanceService

theorem getCurrentWeekId_tracks (now : Ms) (s : St) (h : StInv s) :
    TracksFrom s (getCurrentWeekId now s).2 := by
  obtain ⟨hI, hE, _, _⟩ := getCurrentWeekId_spec now s h
  have hf := getCurrentWeekId_fields now s
  obtain ⟨⟨m, hm, hkeys⟩, _, _⟩ := hE
  refine ⟨hI, hf.1.2, hf.1.1, m, hm, ?_⟩
  intro p hp hmem
  rw [hf.1.2] at hmem
  exact absurd (h.2.1 _ hmem) (not_lt.mpr (hkeys p hp))

end FinanceService

/-- C6: `getCurrentWeekTransactions` returns the empty list whenever the
current week is closed; whenever it is open it returns exactly the
transactions whose weekId equals the current week's id, plus every
transaction whose date falls within the current week's period and which does
not belong to a closed week (judged both by its own weekId and by the
standard calendar week of its date — `inClosedWeekPure`). -/
theorem C6_getCurrentWeekTransactions (now : Ms) (sa sb : St) (hInvb : StInv sb)
    (ha : FinanceService.isWeekClosed (FinanceService.getCurrentWeekId now sa).1
        (FinanceService.getCurrentWeekId now sa).2 = true)
    (hb : FinanceService.isWeekClosed (FinanceService.getCurrentWeekId now sb).1
        (FinanceService.getCurrentWeekId now sb).2 = false) :
    (FinanceService.getCurrentWeekTransactions now sa).1 = [] ∧
    (FinanceService.getCurrentWeekTransactions now sb).1
      = sb.transactions.filter (fun t =>
          t.weekId == (FinanceService.getCurrentWeekId now sb).1
          || (!inClosedWeekPure t sb
              && DatesService.isDateInCurrentWeekPeriod t.date
                  (FinanceService.getCurrentWeekStartDate now sb)
                  (FinanceService.getCurrentWeekEndDate now sb))) := by
  constructor
  · unfold FinanceService.getCurrentWeekTransactions
    rw [pairEta (FinanceService.getCurrentWeekId now sa)]
    simp [ha]
  · have htr1 := FinanceService.getCurrentWeekId_tracks now sb hInvb
    have hflds := FinanceService.getCurrentWeekId_fields now sb
    have hwopen : FinanceService.isWeekClosed (FinanceService.getCurrentWeekId now sb).1 sb
        = false := by
      rw [← FinanceService.isWeekClosed_congr _ _ _ hflds.1.2]
      exact hb
    have hstart := getCurrentWeekStartDate_congr now sb _ hflds.2.1.1 hflds.2.1.2
    have hend := getCurrentWeekEndDate_congr now sb _ hflds.2.1.1 hflds.2.1.2
    unfold FinanceService.getCurrentWeekTransactions
    rw [pairEta (FinanceService.getCurrentWeekId now sb)]
    simp only [hb, Bool.false_eq_true, ite_false, if_false]
    unfold FinanceService.getTransactionsByWeek
    rw [FinanceService.getCurrentWeekId_idem now sb hInvb,
      pairEta (FinanceService.getCurrentWeekId now sb)]
    simp only [if_pos rfl]
    rw [hstart, hend]
    unfold FinanceService.getAllTransactions
    obtain ⟨hres1, htrA⟩ := FinanceService.currentWeekTxFilter_tracks
      (FinanceService.getCurrentWeekId now sb).1
      (FinanceService.getCurrentWeekStartDate now sb)
      (FinanceService.getCurrentWeekEndDate now sb) sb hwopen
      (FinanceService.getCurrentWeekId now sb).2.transactions
      (FinanceService.getCurrentWeekId now sb).2 htr1
    rw [pairEta (FinanceService.currentWeekTxFilter
      (FinanceService.getCurrentWeekId now sb).1
      (FinanceService.getCurrentWeekStartDate now sb)
      (FinanceService.getCurrentWeekEndDate now sb)
      (FinanceService.getCurrentWeekId now sb).2.transactions
      (FinanceService.getCurrentWeekId now sb).2)]
    simp only [if_true]
    obtain ⟨hres2, _⟩ := FinanceService.currentWeekTxFilter2_tracks
      (FinanceService.getCurrentWeekId now sb).1 sb
      (FinanceService.currentWeekTxFilter
        (FinanceService.getCurrentWeekId now sb).1
        (FinanceService.getCurrentWeekStartDate now sb)
        (FinanceService.getCurrentWeekEndDate now sb)
        (FinanceService.getCurrentWeekId now sb).2.transactions
        (FinanceService.getCurrentWeekId now sb).2).1
      _ htrA
    rw [hres2, hres1, hflds.1.1, List.filter_filter]
    apply List.filter_congr
    intro t _
    cases h1 : t.weekId == (FinanceService.getCurrentWeekId now sb).1 with
    | true => simp [h1]
    | false =>
      cases h2 : inClosedWeekPure t sb with
      | true => simp [h1, h2]
      | false =>
        cases h3 : DatesService.isDateInCurrentWeekPeriod t.date
            (FinanceService.getCurrentWeekStartDate now sb)
            (FinanceService.getCurrentWeekEndDate now sb) with
        | true => simp [h1, h2, h3]
        | false => simp [h1, h2, h3]

/-- Witness for C6: the concrete closed and open ledgers at the epoch. -/
theorem C6_witness :
    (StInv openSt ∧
     FinanceService.isWeekClosed (FinanceService.getCurrentWeekId 0 closedCurrentSt).1
        (FinanceService.getCurrentWeekId 0 closedCurrentSt).2 = true ∧
     FinanceService.isWeekClosed (FinanceService.getCurrentWeekId 0 openSt).1
        (FinanceService.getCurrentWeekId 0 openSt).2 = false) ∧
    ((FinanceService.getCurrentWeekTransactions 0 closedCurrentSt).1 = [] ∧
     (FinanceService.getCurrentWeekTransactions 0 openSt).1
       = openSt.transactions.filter (fun t =>
           t.weekId == (FinanceService.getCurrentWeekId 0 openSt).1
           || (!inClosedWeekPure t openSt
               && DatesService.isDateInCurrentWeekPeriod t.date
                   (FinanceService.getCurrentWeekStartDate 0 openSt)
                   (FinanceService.getCurrentWeekEndDate 0 openSt)))) :=
  ⟨⟨by decide, by decide, by decide⟩,
   C6_getCurrentWeekTransactions 0 closedCurrentSt openSt (by decide) (by decide) (by decide)⟩

/-- The part of well-formedness the grow-only argument needs even for
arbitrary caller-supplied weekIds: mapping keys below the id supply and
unique. -/
def MapInv (s : St) : Prop :=
  (∀ p ∈ s.weekIdMapping, p.1 < s.gensym) ∧ (s.weekIdMapping.map Prod.fst).Nodup

instance (s : St) : Decidable (MapInv s) := by
  unfold MapInv
  infer_instance

/-- Grow-only step: the mapping and the closed set are extended on the right,
duplicates are never introduced into the closed set, and the id supply and
mapping well-formedness are maintained. -/
def MapGrow (s s' : St) : Prop :=
  MapInv s' ∧ (∃ m, s'.weekIdMapping = s.weekIdMapping ++ m) ∧
  (∃ c, s'.closedWeeks = s.closedWeeks ++ c) ∧ s.gensym ≤ s'.gensym ∧
  (s.closedWeeks.Nodup → s'.closedWeeks.Nodup)

theorem MapGrow.growRefl (s : St) (h : MapInv s) : MapGrow s s :=
  ⟨h, ⟨[], by simp⟩, ⟨[], by simp⟩, le_refl _, fun h => h⟩

theorem MapGrow.growTrans {a b c : St} (h1 : MapGrow a b) (h2 : MapGrow b c) : MapGrow a c := by
  obtain ⟨hi1, ⟨m1, hm1⟩, ⟨c1, hc1⟩, hg1, hn1⟩ := h1
  obtain ⟨hi2, ⟨m2, hm2⟩, ⟨c2, hc2⟩, hg2, hn2⟩ := h2
  exact ⟨hi2, ⟨m1 ++ m2, by rw [hm2, hm1, List.append_assoc]⟩,
    ⟨c1 ++ c2, by rw [hc2, hc1, List.append_assoc]⟩, le_trans hg1 hg2,
    fun h => hn2 (hn1 h)⟩

namespace FinanceService

theorem StInv.mapInv {s : St} (h : StInv s) : MapInv s := ⟨h.1, h.2.2.2.2.1⟩

theorem mapGrow_getOrCreateWeekId (ws : Ms) (s : St) (h : MapInv s) :
    MapGrow s (getOrCreateWeekId ws s).2 := by
  obtain ⟨hb, hnd⟩ := h
  unfold getOrCreateWeekId
  cases hf : findWeekIdByDate s.weekIdMapping (toDateKey ws) with
  | some wid => exact MapGrow.growRefl s ⟨hb, hnd⟩
  | none =>
    unfold generateWeekId
    have hobj : objSet s.weekIdMapping s.gensym (toDateKey ws)
        = s.weekIdMapping ++ [(s.gensym, toDateKey ws)] :=
      objSet_fresh _ _ _ (fun p hp => Nat.ne_of_lt (hb p hp))
    simp only [hobj]
    refine ⟨⟨?_, ?_⟩, ⟨[(s.gensym, toDateKey ws)], by simp⟩, ⟨[], by simp⟩, by simp,
      fun h => h⟩
    · intro p hp
      rcases List.mem_append.mp hp with hp | hp
      · exact Nat.lt_succ_of_lt (hb p hp)
      · rw [List.mem_singleton] at hp
        subst hp
        simp
    · rw [List.map_append, List.nodup_append]
      refine ⟨hnd, by simp, ?_⟩
      intro a ha
      simp only [List.map_cons, List.map_nil, List.mem_singleton]
      intro hbb
      obtain ⟨p, hp, hpa⟩ := List.mem_map.mp ha
      subst hbb
      exact absurd (hpa ▸ hb p hp) (lt_irrefl _)

theorem mapGrow_generateWeekId (s : St) (h : MapInv s) :
    MapGrow s (generateWeekId s).2 := by
  unfold generateWeekId
  exact ⟨⟨fun p hp => Nat.lt_succ_of_lt (h.1 p hp), h.2⟩, ⟨[], by simp⟩, ⟨[], by simp⟩,
    by simp, fun h => h⟩

theorem mapGrow_getCurrentWeekIdFresh (now : Ms) (s : St) (h : MapInv s) :
    MapGrow s (getCurrentWeekIdFresh now s).2 := by
  have h1 := mapGrow_getOrCreateWeekId (getCurrentWeekStartDate now s) s h
  unfold getCurrentWeekIdFresh
  exact ⟨h1.1, h1.2.1, h1.2.2.1, h1.2.2.2.1, h1.2.2.2.2⟩

theorem mapGrow_getCurrentWeekId (now : Ms) (s : St) (h : MapInv s) :
    MapGrow s (getCurrentWeekId now s).2 := by
  unfold getCurrentWeekId
  split
  · split
    · split
      · exact MapGrow.growRefl s h
      · exact mapGrow_getCurrentWeekIdFresh now s h
    · exact mapGrow_getCurrentWeekIdFresh now s h
  · exact mapGrow_getCurrentWeekIdFresh now s h

theorem mapGrow_setCurrentWeekStart (date : Ms) (wid : Option Nat) (s : St) (h : MapInv s) :
    MapGrow s (setCurrentWeekStart date wid s) := by
  unfold setCurrentWeekStart
  cases wid with
  | some w => exact MapGrow.growRefl s h
  | none =>
    have h1 := mapGrow_getOrCreateWeekId (midnight date)
      { s with currentWeekStart := some (midnight date) } h
    exact ⟨h1.1, h1.2.1, h1.2.2.1, h1.2.2.2.1, h1.2.2.2.2⟩

theorem mapGrow_isTransactionInClosedWeek (t : Transaction) (s : St) (h : MapInv s) :
    MapGrow s (isTransactionInClosedWeek t s).2 := by
  unfold isTransactionInClosedWeek
  split
  · exact MapGrow.growRefl s h
  · exact mapGrow_getOrCreateWeekId _ s h

theorem mapGrow_currentWeekTxFilter (wid : Nat) (cwStart cwEnd : Ms) :
    ∀ (txs : List Transaction) (s : St), MapInv s →
      MapGrow s (currentWeekTxFilter wid cwStart cwEnd txs s).2 := by
  intro txs
  induction txs with
  | nil => exact fun s h => MapGrow.growRefl s h
  | cons t ts ih =>
    intro s h
    unfold currentWeekTxFilter
    by_cases ht : t.weekId = wid
    · rw [if_pos ht]
      show MapGrow s (currentWeekTxFilter wid cwStart cwEnd ts s).2
      exact ih s h
    · rw [if_neg ht]
      rw [pairEta (isTransactionInClosedWeek t s)]
      have h1 := mapGrow_isTransactionInClosedWeek t s h
      cases hc1 : (isTransactionInClosedWeek t s).1 with
      | true =>
        simp only [hc1, if_pos rfl, if_true]
        show MapGrow s (currentWeekTxFilter wid cwStart cwEnd ts
          (isTransactionInClosedWeek t s).2).2
        exact h1.growTrans (ih _ h1.1)
      | false =>
        simp only [hc1, Bool.false_eq_true, ite_false, if_false]
        by_cases hper : DatesService.isDateInCurrentWeekPeriod t.date cwStart cwEnd = true
        · rw [if_pos hper]
          have h2 := mapGrow_isTransactionInClosedWeek t _ h1.1
          show MapGrow s (currentWeekTxFilter wid cwStart cwEnd ts
            (isTransactionInClosedWeek t (isTransactionInClosedWeek t s).2).2).2
          exact (h1.growTrans h2).growTrans (ih _ h2.1)
        · rw [if_neg hper]
          show MapGrow s (currentWeekTxFilter wid cwStart cwEnd ts
            (isTransactionInClosedWeek t s).2).2
          exact h1.growTrans (ih _ h1.1)

theorem mapGrow_currentWeekTxFilter2 (cid : Nat) :
    ∀ (txs : List Transaction) (s : St), MapInv s →
      MapGrow s (currentWeekTxFilter2 cid txs s).2 := by
  intro txs
  induction txs with
  | nil => exact fun s h => MapGrow.growRefl s h
  | cons t ts ih =>
    intro s h
    unfold currentWeekTxFilter2
    by_cases ht : t.weekId = cid
    · rw [if_pos ht]
      show MapGrow s (currentWeekTxFilter2 cid ts s).2
      exact ih s h
    · rw [if_neg ht]
      have h1 := mapGrow_isTransactionInClosedWeek t s h
      show MapGrow s (currentWeekTxFilter2 cid ts (isTransactionInClosedWeek t s).2).2
      exact h1.growTrans (ih _ h1.1)

theorem mapGrow_getTransactionsByWeek (now : Ms) (wid : Nat) (s : St) (h : MapInv s) :
    MapGrow s (getTransactionsByWeek now wid s).2 := by
  obtain ⟨cid, s1, hpair⟩ : ∃ cid s1, getCurrentWeekId now s = (cid, s1) := ⟨_, _, rfl⟩
  have h1 := mapGrow_getCurrentWeekId now s h
  rw [hpair] at h1
  unfold getTransactionsByWeek
  simp only [hpair]
  by_cases hw : wid = cid
  · rw [if_pos hw]
    show MapGrow s (currentWeekTxFilter wid (getCurrentWeekStartDate now s1)
      (getCurrentWeekEndDate now s1) (getAllTransactions s) s1).2
    exact h1.growTrans (mapGrow_currentWeekTxFilter _ _ _ _ _ h1.1)
  · rw [if_neg hw]
    exact h1

theorem mapGrow_getCurrentWeekTransactions (now : Ms) (s : St) (h : MapInv s) :
    MapGrow s (getCurrentWeekTransactions now s).2 := by
  obtain ⟨cid, s1, hpair⟩ : ∃ cid s1, getCurrentWeekId now s = (cid, s1) := ⟨_, _, rfl⟩
  have h1 := mapGrow_getCurrentWeekId now s h
  rw [hpair] at h1
  unfold getCurrentWeekTransactions
  simp only [hpair]
  by_cases hcl : isWeekClosed cid s1 = true
  · rw [if_pos hcl]
    exact h1
  · rw [if_neg hcl]
    have h2 := mapGrow_getTransactionsByWeek now cid s1 h1.1
    show MapGrow s (currentWeekTxFilter2 cid (getTransactionsByWeek now cid s1).1
      (getTransactionsByWeek now cid s1).2).2
    exact (h1.growTrans h2).growTrans (mapGrow_currentWeekTxFilter2 _ _ _ h2.1)

theorem mapGrow_isDateInClosedWeek (date : Ms) (s : St) (h : MapInv s) :
    MapGrow s (isDateInClosedWeek date s).2 := by
  unfold isDateInClosedWeek
  show MapGrow s (getOrCreateWeekId (DatesService.getWeekStart date) s).2
  exact mapGrow_getOrCreateWeekId _ s h

end FinanceService
namespace FinanceService

theorem setNextCloseDate_shape (now d : Ms) (s s' : St)
    (h : setNextCloseDate now d s = .ok s') :
    s' = { s with nextCloseDate := some d } := by
  unfold setNextCloseDate at h
  cases hday : DatesService.isDayOfWeek d (getAutoCloseConfig s).dayOfWeek with
  | false => simp [hday] at h
  | true =>
    simp only [hday, Bool.not_true, Bool.false_eq_true, ite_false, if_false] at h
    by_cases hfut : midnight d ≤ midnight now
    · simp [hfut] at h
    · simp only [hfut, ite_false, if_false] at h
      injection h with h
      exact h.symm

theorem mapGrow_mint (v : Int) (s : St) (h : MapInv s) :
    MapGrow s
      { s with
        gensym := s.gensym + 1,
        weekIdMapping := objSet s.weekIdMapping s.gensym v } := by
  have hobj : objSet s.weekIdMapping s.gensym v = s.weekIdMapping ++ [(s.gensym, v)] :=
    objSet_fresh _ _ _ (fun p hp => Nat.ne_of_lt (h.1 p hp))
  simp only [hobj]
  refine ⟨⟨?_, ?_⟩, ⟨[(s.gensym, v)], by simp⟩, ⟨[], by simp⟩, by simp, fun h => h⟩
  · intro p hp
    rcases List.mem_append.mp hp with hp | hp
    · exact Nat.lt_succ_of_lt (h.1 p hp)
    · rw [List.mem_singleton] at hp
      subst hp
      simp
  · rw [List.map_append, List.nodup_append]
    refine ⟨h.2, by simp, ?_⟩
    intro a ha
    simp only [List.map_cons, List.map_nil, List.mem_singleton]
    intro hbb
    obtain ⟨p, hp, hpa⟩ := List.mem_map.mp ha
    subst hbb
    exact absurd (hpa ▸ h.1 p hp) (lt_irrefl _)

theorem mapGrow_push_closed (s : St) (w : Nat) (h : MapInv s)
    (hnm : w ∉ s.closedWeeks) :
    MapGrow s { s with closedWeeks := s.closedWeeks ++ [w] } := by
  refine ⟨h, ⟨[], by simp⟩, ⟨[w], by simp⟩, le_refl _, ?_⟩
  intro hnd
  rw [List.nodup_append]
  refine ⟨hnd, by simp, ?_⟩
  intro a ha hb
  rw [List.mem_singleton] at hb
  subst hb
  exact hnm ha

theorem mapGrow_nextClose_update (s : St) (h : MapInv s) (d : Option Ms) :
    MapGrow s { s with nextCloseDate := d } :=
  ⟨h, ⟨[], by simp⟩, ⟨[], by simp⟩, le_refl _, fun h => h⟩

theorem mapGrow_closeWeekFinish (now : Ms) (ncd : Option Ms) (isM : Bool)
    (s2 : St) (h : MapInv s2) :
    MapGrow s2 (closeWeekFinish now ncd isM s2).2 := by
  unfold closeWeekFinish
  by_cases hman : isM = true
  · rw [if_pos hman]
    have hmint := mapGrow_mint (toDateKey (midnight now)) s2 h
    set s4 : St := ({ s2 with
      gensym := s2.gensym + 1,
      weekIdMapping := objSet s2.weekIdMapping s2.gensym (toDateKey (midnight now)) } : St)
      with hs4
    show MapGrow s2 ((match
        (match s2.nextCloseDate with
         | some cncd =>
           if midnight now < midnight cncd then
             Except.ok (setCurrentWeekStart (midnight now) (some s2.gensym) s4)
           else
             match setNextCloseDate now (DatesService.getNextDayOfWeekAfter now
                 (getAutoCloseConfig s2).dayOfWeek) s4 with
             | .error e => Except.error e
             | .ok s5 => Except.ok (setCurrentWeekStart (midnight now) (some s2.gensym) s5)
         | none =>
           match setNextCloseDate now (DatesService.getNextDayOfWeekAfter now
               (getAutoCloseConfig s2).dayOfWeek) s4 with
           | .error e => Except.error e
           | .ok s5 => Except.ok (setCurrentWeekStart (midnight now) (some s2.gensym) s5)) with
       | .error e => (Except.error e, s4)
       | .ok s6 =>
         if isWeekClosed (getCurrentWeekId now s6).1 (getCurrentWeekId now s6).2 then
           (Except.ok true, setCurrentWeekStart (midnight now + dayMs)
             (some (getCurrentWeekId now s6).2.gensym)
             { (getCurrentWeekId now s6).2 with
               gensym := (getCurrentWeekId now s6).2.gensym + 1 })
         else (Except.ok true, (getCurrentWeekId now s6).2) : Except Err Bool × St)).2
    split
    · exact hmint
    · rename_i s6 heq
      have h6 : MapGrow s2 s6 := by
        split at heq
        · split at heq
          · have hgl : MapGrow s2 (setCurrentWeekStart (midnight now) (some s2.gensym) s4) :=
              hmint.growTrans (mapGrow_setCurrentWeekStart (midnight now) (some s2.gensym) s4 hmint.1)
            injection heq with heq
            exact heq ▸ hgl
          · split at heq
            · exact absurd heq (by simp)
            · rename_i s5 hs5
              have h5 := setNextCloseDate_shape _ _ _ _ hs5
              subst h5
              have hto5 := hmint.growTrans (mapGrow_nextClose_update s4 hmint.1
                (some (DatesService.getNextDayOfWeekAfter now (getAutoCloseConfig s2).dayOfWeek)))
              have hgl := hto5.growTrans (mapGrow_setCurrentWeekStart (midnight now)
                (some s2.gensym) _ hto5.1)
              injection heq with heq
              exact heq ▸ hgl
        · split at heq
          · exact absurd heq (by simp)
          · rename_i s5 hs5
            have h5 := setNextCloseDate_shape _ _ _ _ hs5
            subst h5
            have hto5 := hmint.growTrans (mapGrow_nextClose_update s4 hmint.1
              (some (DatesService.getNextDayOfWeekAfter now (getAutoCloseConfig s2).dayOfWeek)))
            have hgl := hto5.growTrans (mapGrow_setCurrentWeekStart (midnight now)
              (some s2.gensym) _ hto5.1)
            injection heq with heq
            exact heq ▸ hgl
      have h7 := mapGrow_getCurrentWeekId now s6 h6.1
      split
      · have h8 := mapGrow_generateWeekId (getCurrentWeekId now s6).2 (h6.growTrans h7).1
        have hgl := ((h6.growTrans h7).growTrans h8).growTrans
          (mapGrow_setCurrentWeekStart (midnight now + dayMs)
            (some (getCurrentWeekId now s6).2.gensym) _ ((h6.growTrans h7).growTrans h8).1)
        exact hgl
      · exact h6.growTrans h7
  · rw [if_neg hman]
    split
    · split
      · exact MapGrow.growRefl s2 h
      · rename_i s3 hs3
        have h3 := setNextCloseDate_shape _ _ _ _ hs3
        subst h3
        exact mapGrow_nextClose_update _ h _
    · show MapGrow s2 ((match setNextCloseDate now
          (DatesService.getNextDayOfWeekAfter now (getAutoCloseConfig s2).dayOfWeek) s2 with
        | Except.error e => ((Except.error e : Except Err Bool), s2)
        | Except.ok s3 => (Except.ok true, s3)) : Except Err Bool × St).2
      split
      · exact MapGrow.growRefl s2 h
      · rename_i s3 hs3
        have h3 := setNextCloseDate_shape _ _ _ _ hs3
        subst h3
        exact mapGrow_nextClose_update _ h _

theorem mapGrow_closeWeekBody (pOk : Bool) (now : Ms) (ncd : Option Ms)
    (isM : Bool) (w : Nat) (s : St) (h : MapInv s) :
    MapGrow s (closeWeekBody pOk now ncd isM w s).2 := by
  unfold closeWeekBody
  by_cases hmem : (getClosedWeeks s).contains w = true
  · rw [if_pos hmem]
    split <;> exact MapGrow.growRefl s h
  · rw [if_neg hmem]
    have hnm : w ∉ s.closedWeeks := by
      simpa [getClosedWeeks] using hmem
    cases pOk with
    | true =>
      have hstep : MapGrow s ({ s with closedWeeks := getClosedWeeks s ++ [w] } : St) :=
        mapGrow_push_closed s w h hnm
      show MapGrow s ((if (!(getClosedWeeks
            ({ s with closedWeeks := getClosedWeeks s ++ [w] } : St)).contains w) = true then
          ((Except.error Err.persistenceInconsistency : Except Err Bool),
            ({ s with closedWeeks := getClosedWeeks s ++ [w] } : St))
        else closeWeekFinish now ncd isM
          ({ s with closedWeeks := getClosedWeeks s ++ [w] } : St)) : Except Err Bool × St).2
      split
      · exact hstep
      · exact hstep.growTrans (mapGrow_closeWeekFinish now ncd isM _ hstep.1)
    | false =>
      have hstep : MapGrow s ({ s with closedWeeks := getClosedWeeks s } : St) :=
        ⟨h, ⟨[], by simp⟩, ⟨[], by simp [getClosedWeeks]⟩, le_refl _, fun h => h⟩
      show MapGrow s ((if (!(getClosedWeeks
            ({ s with closedWeeks := getClosedWeeks s } : St)).contains w) = true then
          ((Except.error Err.persistenceInconsistency : Except Err Bool),
            ({ s with closedWeeks := getClosedWeeks s } : St))
        else closeWeekFinish now ncd isM
          ({ s with closedWeeks := getClosedWeeks s } : St)) : Except Err Bool × St).2
      split
      · exact hstep
      · exact hstep.growTrans (mapGrow_closeWeekFinish now ncd isM _ hstep.1)

end FinanceService
namespace FinanceService

theorem mapGrow_addTx (s : St) (txs : List Transaction) (h : MapInv s) :
    MapGrow s { s with transactions := txs } :=
  ⟨h, ⟨[], by simp⟩, ⟨[], by simp⟩, le_refl _, fun h => h⟩

theorem mapGrow_createTransaction (now : Ms) (d : List Char) (a : Rat)
    (ds : DateStr) (s : St) (h : MapInv s) :
    MapGrow s (createTransaction now d a ds s).2 := by
  unfold createTransaction
  by_cases h1 : jsTrim d = []
  · rw [if_pos h1]
    exact MapGrow.growRefl s h
  · rw [if_neg h1]
    by_cases h2 : a ≤ 0
    · rw [if_pos h2]
      exact MapGrow.growRefl s h
    · rw [if_neg h2]
      by_cases h3 : ds.isEmpty = true
      · rw [if_pos h3]
        exact MapGrow.growRefl s h
      · rw [if_neg h3]
        obtain ⟨cid, s1, hpair⟩ : ∃ cid s1, getCurrentWeekId now s = (cid, s1) := ⟨_, _, rfl⟩
        have hg1 := mapGrow_getCurrentWeekId now s h
        rw [hpair] at hg1
        simp only [hpair]
        by_cases hcl : isWeekClosed cid s1 = true
        · rw [if_pos hcl]
          exact hg1
        · rw [if_neg hcl]
          cases hp : ds.parsed with
          | none => exact hg1
          | some date =>
            obtain ⟨stdId, s2, hpair2⟩ : ∃ i s2,
                getOrCreateWeekId (DatesService.getWeekStart date) s1 = (i, s2) :=
              ⟨_, _, rfl⟩
            have hg2 := mapGrow_getOrCreateWeekId (DatesService.getWeekStart date) s1 hg1.1
            rw [hpair2] at hg2
            obtain ⟨tid, s3, hpair3⟩ : ∃ t s3, generateWeekId s2 = (t, s3) := ⟨_, _, rfl⟩
            have hg3 := mapGrow_generateWeekId s2 hg2.1
            rw [hpair3] at hg3
            simp only [hpair2, hpair3]
            exact ((hg1.growTrans hg2).growTrans hg3).growTrans
              (mapGrow_addTx s3 _ ((hg1.growTrans hg2).growTrans hg3).1)

theorem mapGrow_closeWeek (pOk : Bool) (now : Ms) (wid : Option Nat) (ncd : Option Ms)
    (isM : Bool) (s : St) (h : MapInv s) :
    MapGrow s (closeWeek pOk now wid ncd isM s).2 := by
  unfold closeWeek
  by_cases hm : (isM && wid.isNone) = true
  · rw [if_pos hm]
    obtain ⟨tid, s1, hpair⟩ : ∃ t s1, getCurrentWeekId now s = (t, s1) := ⟨_, _, rfl⟩
    have hg1 := mapGrow_getCurrentWeekId now s h
    rw [hpair] at hg1
    simp only [hpair]
    by_cases hcl : isWeekClosed tid s1 = true
    · rw [if_pos hcl]
      exact hg1
    · rw [if_neg hcl]
      exact hg1.growTrans (mapGrow_closeWeekBody pOk now ncd isM tid s1 hg1.1)
  · rw [if_neg hm]
    cases wid with
    | some w =>
      show MapGrow s ((if isWeekClosed w s = true then ((Except.ok false : Except Err Bool), s)
        else closeWeekBody pOk now ncd isM w s) : Except Err Bool × St).2
      by_cases hcl : isWeekClosed w s = true
      · rw [if_pos hcl]
        exact MapGrow.growRefl s h
      · rw [if_neg hcl]
        exact mapGrow_closeWeekBody pOk now ncd isM w s h
    | none =>
      obtain ⟨tid, s1, hpair⟩ : ∃ t s1, getCurrentWeekId now s = (t, s1) := ⟨_, _, rfl⟩
      have hg1 := mapGrow_getCurrentWeekId now s h
      rw [hpair] at hg1
      simp only [hpair]
      by_cases hcl : isWeekClosed tid s1 = true
      · rw [if_pos hcl]
        exact hg1
      · rw [if_neg hcl]
        exact hg1.growTrans (mapGrow_closeWeekBody pOk now ncd isM tid s1 hg1.1)

theorem mapGrow_checkAndAutoCloseWeek (pOk : Bool) (now : Ms) (s : St) (h : MapInv s) :
    MapGrow s (checkAndAutoCloseWeek pOk now s).2 := by
  unfold checkAndAutoCloseWeek
  by_cases he : (!(getAutoCloseConfig s).enabled) = true
  · rw [if_pos he]
    exact MapGrow.growRefl s h
  · rw [if_neg he]
    by_cases hd : (decide (weekday now = (getAutoCloseConfig s).dayOfWeek) &&
        decide (hourOf now ≥ (getAutoCloseConfig s).hour)) = true
    · rw [if_pos hd]
      obtain ⟨cid, s1, hpair⟩ : ∃ c s1, getCurrentWeekId now s = (c, s1) := ⟨_, _, rfl⟩
      have hg1 := mapGrow_getCurrentWeekId now s h
      rw [hpair] at hg1
      simp only [hpair]
      by_cases hcl : (!isWeekClosed cid s1) = true
      · rw [if_pos hcl]
        obtain ⟨nw, s2, hpair2⟩ : ∃ n s2, generateWeekId s1 = (n, s2) := ⟨_, _, rfl⟩
        have hg2 := mapGrow_generateWeekId s1 hg1.1
        rw [hpair2] at hg2
        obtain ⟨r, s3, hpair3⟩ : ∃ r s3,
            closeWeek pOk now (some cid)
              (some (DatesService.getNextDayOfWeekAfter now
                (getAutoCloseConfig s).dayOfWeek)) false s2 = (r, s3) :=
          ⟨_, _, rfl⟩
        have hg3 := mapGrow_closeWeek pOk now (some cid)
          (some (DatesService.getNextDayOfWeekAfter now
            (getAutoCloseConfig s).dayOfWeek)) false s2 hg2.1
        rw [hpair3] at hg3
        have hgl : MapGrow s s3 := (hg1.growTrans hg2).growTrans hg3
        simp only [hpair2, hpair3]
        cases r with
        | error e => exact hgl
        | ok closed =>
          cases closed with
          | false => exact hgl
          | true =>
            show MapGrow s (setCurrentWeekStart (midnight now) (some nw) s3)
            exact hgl.growTrans (mapGrow_setCurrentWeekStart (midnight now) (some nw) s3 hgl.1)
      · rw [if_neg hcl]
        exact hg1
    · rw [if_neg hd]
      exact MapGrow.growRefl s h

theorem mapGrow_historyEntry (now : Ms) (wid : Nat) (s : St) (h : MapInv s) :
    MapGrow s (historyEntry now wid s).2 := by
  obtain ⟨txs, s1, hpair⟩ : ∃ t s1, getTransactionsByWeek now wid s = (t, s1) := ⟨_, _, rfl⟩
  have hg1 := mapGrow_getTransactionsByWeek now wid s h
  rw [hpair] at hg1
  unfold historyEntry
  simp only [hpair]
  exact hg1

theorem mapGrow_historyEntries (now : Ms) (l : List Nat) (s : St) (h : MapInv s) :
    MapGrow s (historyEntries now l s).2 := by
  induction l generalizing s with
  | nil => exact MapGrow.growRefl s h
  | cons wid ws ih =>
    unfold historyEntries
    obtain ⟨e, s1, hp1⟩ : ∃ e s1, historyEntry now wid s = (e, s1) := ⟨_, _, rfl⟩
    have hg1 := mapGrow_historyEntry now wid s h
    rw [hp1] at hg1
    obtain ⟨rest, s2, hp2⟩ : ∃ r s2, historyEntries now ws s1 = (r, s2) := ⟨_, _, rfl⟩
    have hg2 := ih s1 hg1.1
    rw [hp2] at hg2
    simp only [hp1, hp2]
    exact hg1.growTrans hg2

theorem mapGrow_getWeeksHistory (now : Ms) (limit : Nat) (s : St) (h : MapInv s) :
    MapGrow s (getWeeksHistory now limit s).2 := by
  unfold getWeeksHistory
  obtain ⟨infos, s1, hp⟩ : ∃ i s1,
      historyEntries now
        (dedupFirst (getClosedWeeks s ++ (getAllTransactions s).map (fun t => t.weekId))) s
        = (i, s1) :=
    ⟨_, _, rfl⟩
  have hg := mapGrow_historyEntries now
    (dedupFirst (getClosedWeeks s ++ (getAllTransactions s).map (fun t => t.weekId))) s h
  rw [hp] at hg
  simp only [hp]
  exact hg

theorem mapGrow_isCurrentWeekClosed (now : Ms) (s : St) (h : MapInv s) :
    MapGrow s (isCurrentWeekClosed now s).2 := by
  obtain ⟨cid, s1, hpair⟩ : ∃ c s1, getCurrentWeekId now s = (c, s1) := ⟨_, _, rfl⟩
  have hg1 := mapGrow_getCurrentWeekId now s h
  rw [hpair] at hg1
  unfold isCurrentWeekClosed
  simp only [hpair]
  exact hg1

end FinanceService

/-- C9: every operation of the ledger — including the read-only queries
`getWeeksHistory`, `getCurrentWeekTransactions` and `isDateInClosedWeek`, whose
lazy pointer/mapping repair may write — only grows the weekId↔startDate
mapping and the closed set: the mapping after the call is the mapping before
it with entries appended on the right (so an entry, once present, is never
removed and its startDate never changes), the closed set is likewise extended
on the right and stays duplicate-free, and the id supply never decreases
(`MapGrow` packages exactly these conditions together with preservation of the
mapping well-formedness `MapInv`). -/
theorem C9_grow_only (pOk isM : Bool) (now date : Ms) (wid : Option Nat)
    (ncd : Option Ms) (d : List Char) (a : Rat) (ds : DateStr) (n w : Nat)
    (s : St) (h : MapInv s) :
    MapGrow s (FinanceService.createTransaction now d a ds s).2 ∧
    MapGrow s (FinanceService.closeWeek pOk now wid ncd isM s).2 ∧
    MapGrow s (FinanceService.checkAndAutoCloseWeek pOk now s).2 ∧
    MapGrow s (FinanceService.getWeeksHistory now n s).2 ∧
    MapGrow s (FinanceService.getCurrentWeekTransactions now s).2 ∧
    MapGrow s (FinanceService.getTransactionsByWeek now w s).2 ∧
    MapGrow s (FinanceService.isDateInClosedWeek date s).2 ∧
    MapGrow s (FinanceService.isCurrentWeekClosed now s).2 :=
  ⟨FinanceService.mapGrow_createTransaction now d a ds s h,
   FinanceService.mapGrow_closeWeek pOk now wid ncd isM s h,
   FinanceService.mapGrow_checkAndAutoCloseWeek pOk now s h,
   FinanceService.mapGrow_getWeeksHistory now n s h,
   FinanceService.mapGrow_getCurrentWeekTransactions now s h,
   FinanceService.mapGrow_getTransactionsByWeek now w s h,
   FinanceService.mapGrow_isDateInClosedWeek date s h,
   FinanceService.mapGrow_isCurrentWeekClosed now s h⟩

/-- Witness for C9 at a concrete well-formed state. -/
theorem C9_witness :
    MapInv openSt ∧ MapGrow openSt (FinanceService.checkAndAutoCloseWeek true 0 openSt).2 :=
  ⟨by decide,
   (C9_grow_only true true 0 0 none none [] 1 ⟨false, some 0⟩ 5 0 openSt (by decide)).2.2.1⟩
/-- A transaction whose weekId has no entry in the weekId↔startDate mapping
(inconsistent but reachable data: e.g. the mapping was cleared or the entry
was written under another storage key). -/
def histTx : Transaction :=
  { id := 50, description := ['a'], amount := 1, date := 0, weekId := 7, createdAt := 0 }

/-- State for the C7 counterexample: one transaction in week 7, no mapping
entry for week 7. -/
def histSt : St :=
  { emptySt with transactions := [histTx], gensym := 100 }

namespace FinanceService

theorem insertDescByStart_perm (w : WeekInfo) (l : List WeekInfo) :
    (insertDescByStart w l).Perm (w :: l) := by
  induction l with
  | nil => exact List.Perm.refl _
  | cons x xs ih =>
    unfold insertDescByStart
    by_cases hle : w.weekStart ≤ x.weekStart
    · rw [if_pos hle]
      exact (ih.cons x).trans (List.Perm.swap w x xs)
    · rw [if_neg hle]

theorem sortDescByStart_perm (l : List WeekInfo) : (sortDescByStart l).Perm l := by
  induction l with
  | nil => exact List.Perm.refl _
  | cons x xs ih =>
    unfold sortDescByStart
    exact (insertDescByStart_perm x (sortDescByStart xs)).trans (ih.cons x)

theorem insertDescByStart_sorted (w : WeekInfo) (l : List WeekInfo)
    (h : l.Pairwise (fun a b => b.weekStart ≤ a.weekStart)) :
    (insertDescByStart w l).Pairwise (fun a b => b.weekStart ≤ a.weekStart) := by
  induction l with
  | nil => simp [insertDescByStart]
  | cons x xs ih =>
    rw [List.pairwise_cons] at h
    obtain ⟨hx, hxs⟩ := h
    unfold insertDescByStart
    by_cases hle : w.weekStart ≤ x.weekStart
    · rw [if_pos hle]
      rw [List.pairwise_cons]
      refine ⟨?_, ih hxs⟩
      intro y hy
      rcases List.mem_cons.mp ((insertDescByStart_perm w xs).mem_iff.mp hy) with rfl | hy
      · exact hle
      · exact hx y hy
    · rw [if_neg hle]
      rw [List.pairwise_cons]
      refine ⟨?_, List.pairwise_cons.mpr ⟨hx, hxs⟩⟩
      intro y hy
      rcases List.mem_cons.mp hy with rfl | hy
      · exact le_of_lt (lt_of_not_le hle)
      · exact le_trans (hx y hy) (le_of_lt (lt_of_not_le hle))

theorem sortDescByStart_sorted (l : List WeekInfo) :
    (sortDescByStart l).Pairwise (fun a b => b.weekStart ≤ a.weekStart) := by
  induction l with
  | nil => simp [sortDescByStart]
  | cons x xs ih =>
    unfold sortDescByStart
    exact insertDescByStart_sorted x (sortDescByStart xs) ih

theorem dedupFold_nodup (l : List Nat) : ∀ acc : List Nat, acc.Nodup →
    (l.foldl (fun acc x => if acc.contains x then acc else acc ++ [x]) acc).Nodup := by
  induction l with
  | nil => intro acc h; exact h
  | cons x xs ih =>
    intro acc h
    simp only [List.foldl_cons]
    by_cases hc : acc.contains x = true
    · rw [if_pos hc]
      exact ih acc h
    · rw [if_neg hc]
      apply ih
      rw [List.nodup_append]
      refine ⟨h, by simp, ?_⟩
      intro a ha hb
      rw [List.mem_singleton] at hb
      subst hb
      exact hc (by simpa using ha)

theorem dedupFold_mem (l : List Nat) : ∀ (acc : List Nat) (y : Nat),
    y ∈ l.foldl (fun acc x => if acc.contains x then acc else acc ++ [x]) acc →
    y ∈ acc ∨ y ∈ l := by
  induction l with
  | nil => intro acc y hy; exact Or.inl hy
  | cons x xs ih =>
    intro acc y hy
    simp only [List.foldl_cons] at hy
    by_cases hc : acc.contains x = true
    · rw [if_pos hc] at hy
      rcases ih acc y hy with h | h
      · exact Or.inl h
      · exact Or.inr (List.mem_cons_of_mem x h)
    · rw [if_neg hc] at hy
      rcases ih (acc ++ [x]) y hy with h | h
      · rcases List.mem_append.mp h with h | h
        · exact Or.inl h
        · rw [List.mem_singleton] at h
          exact Or.inr (h ▸ List.mem_cons_self x xs)
      · exact Or.inr (List.mem_cons_of_mem x h)

theorem dedupFirst_nodup (l : List Nat) : (dedupFirst l).Nodup :=
  dedupFold_nodup l [] List.nodup_nil

theorem dedupFirst_subset (l : List Nat) (y : Nat) (hy : y ∈ dedupFirst l) : y ∈ l := by
  rcases dedupFold_mem l [] y hy with h | h
  · exact absurd h (List.not_mem_nil y)
  · exact h

theorem historyEntry_weekId (now : Ms) (wid : Nat) (s : St) :
    (historyEntry now wid s).1.weekId = wid := by
  unfold historyEntry
  obtain ⟨txs, s1, hp⟩ : ∃ t s1, getTransactionsByWeek now wid s = (t, s1) := ⟨_, _, rfl⟩
  simp only [hp]

theorem historyEntries_map_weekId (now : Ms) (l : List Nat) (s : St) :
    (historyEntries now l s).1.map (fun w => w.weekId) = l := by
  induction l generalizing s with
  | nil => rfl
  | cons wid ws ih =>
    unfold historyEntries
    obtain ⟨e, s1, hp1⟩ : ∃ e s1, historyEntry now wid s = (e, s1) := ⟨_, _, rfl⟩
    obtain ⟨rest, s2, hp2⟩ : ∃ r s2, historyEntries now ws s1 = (r, s2) := ⟨_, _, rfl⟩
    simp only [hp1, hp2, List.map_cons]
    have h1 : e.weekId = wid := by
      have h := historyEntry_weekId now wid s
      rw [hp1] at h
      exact h
    have h2 : rest.map (fun w => w.weekId) = ws := by
      have h := ih s1
      rw [hp2] at h
      exact h
    rw [h1, h2]

theorem getWeeksHistory_fst (now : Ms) (limit : Nat) (s : St) :
    (getWeeksHistory now limit s).1 =
      (sortDescByStart
        (((historyEntries now
            (dedupFirst (getClosedWeeks s ++ (getAllTransactions s).map (fun t => t.weekId)))
            s).1).filter (fun w => 0 < w.weekStart))).take limit := by
  unfold getWeeksHistory
  obtain ⟨infos, s1, hp⟩ : ∃ i s1,
      historyEntries now
        (dedupFirst (getClosedWeeks s ++ (getAllTransactions s).map (fun t => t.weekId))) s
        = (i, s1) :=
    ⟨_, _, rfl⟩
  simp only [hp]

end FinanceService

/-- C7 counterexample: week 7 has a transaction (so its calendar week is
computable from the transaction's date) but no mapping entry.  The claim says
such a week's start date falls back to the transaction's calendar week and
that only weeks with no resolvable date at all are dropped, yet
`getWeeksHistory` returns no entry for it: the fallback only feeds the
displayed period string, while the `weekStart` field used by the positivity
filter stays at the epoch, so the week is removed. -/
theorem C7_counterexample :
    (FinanceService.getWeeksHistory 0 10 histSt).1 = [] ∧
    (FinanceService.getAllTransactions histSt).map (fun t => t.weekId) = [7] ∧
    FinanceService.getWeekStartDateById 7 histSt = none := by decide

/-- C7 (amended): `getWeeksHistory limit` returns at most `limit` entries,
sorted in descending order of `weekStart`, at most one entry per weekId, and
every returned entry has a positive mapped start date and a weekId drawn from
the closed set or from some transaction.  Weeks whose weekId has no mapping
entry (or one at the epoch) are dropped even when their transactions make the
calendar week computable: the first-transaction fallback only affects the
displayed period string, not the `weekStart` used for filtering and
sorting. -/
theorem C7_getWeeksHistory_amended (now : Ms) (limit : Nat) (s : St) :
    (FinanceService.getWeeksHistory now limit s).1.length ≤ limit ∧
    (FinanceService.getWeeksHistory now limit s).1.Pairwise
      (fun a b => b.weekStart ≤ a.weekStart) ∧
    ((FinanceService.getWeeksHistory now limit s).1.map (fun w => w.weekId)).Nodup ∧
    ∀ w ∈ (FinanceService.getWeeksHistory now limit s).1,
      0 < w.weekStart ∧
      (w.weekId ∈ FinanceService.getClosedWeeks s ∨
        w.weekId ∈ (FinanceService.getAllTransactions s).map (fun t => t.weekId)) := by
  rw [FinanceService.getWeeksHistory_fst]
  have hids : (FinanceService.dedupFirst (FinanceService.getClosedWeeks s ++
      (FinanceService.getAllTransactions s).map (fun t => t.weekId))).Nodup :=
    FinanceService.dedupFirst_nodup _
  have hinf : ((FinanceService.historyEntries now
      (FinanceService.dedupFirst (FinanceService.getClosedWeeks s ++
        (FinanceService.getAllTransactions s).map (fun t => t.weekId))) s).1.map
      (fun w => w.weekId)) =
      FinanceService.dedupFirst (FinanceService.getClosedWeeks s ++
        (FinanceService.getAllTransactions s).map (fun t => t.weekId)) :=
    FinanceService.historyEntries_map_weekId now _ s
  refine ⟨?_, ?_, ?_, ?_⟩
  · exact le_trans (le_of_eq (List.length_take _ _)) (min_le_left _ _)
  · exact List.Pairwise.sublist (List.take_sublist _ _)
      (FinanceService.sortDescByStart_sorted _)
  · have h1 : (((FinanceService.historyEntries now
        (FinanceService.dedupFirst (FinanceService.getClosedWeeks s ++
          (FinanceService.getAllTransactions s).map (fun t => t.weekId))) s).1.filter
        (fun w => 0 < w.weekStart)).map
        (fun (w : FinanceService.WeekInfo) => w.weekId)).Nodup :=
      ((List.filter_sublist _).map
        (fun (w : FinanceService.WeekInfo) => w.weekId)).nodup (by rw [hinf]; exact hids)
    have h2 := ((FinanceService.sortDescByStart_perm _).map
      (fun (w : FinanceService.WeekInfo) => w.weekId)).nodup_iff.mpr h1
    exact ((List.take_sublist _ _).map
      (fun (w : FinanceService.WeekInfo) => w.weekId)).nodup h2
  · intro w hw
    have hw1 := (List.take_sublist _ _).subset hw
    have hw2 := (FinanceService.sortDescByStart_perm _).subset hw1
    have hpred0 := List.of_mem_filter hw2
    have hpred : (0 : Ms) < w.weekStart := of_decide_eq_true hpred0
    have hwmem := List.mem_of_mem_filter hw2
    have hmap : w.weekId ∈ (FinanceService.historyEntries now
        (FinanceService.dedupFirst (FinanceService.getClosedWeeks s ++
          (FinanceService.getAllTransactions s).map (fun t => t.weekId))) s).1.map
        (fun w => w.weekId) :=
      List.mem_map_of_mem (fun w => w.weekId) hwmem
    rw [hinf] at hmap
    exact ⟨hpred, List.mem_append.mp (FinanceService.dedupFirst_subset _ _ hmap)⟩
